import Mathlib

/-!
# Verification development for `gvisor/tools/ioctl_sniffer/sniffer/sniffer.go`

A shallow embedding of the ioctl sniffer: the classifier `ParseIoctlOutput`, the
supportability predicate `Ioctl.IsSupported`, the aggregator `Results` and the
stream loop `ParseIoctls`.

Conventions of the embedding:

* Go's unsigned machine integers are natural numbers; every conversion
  `uint32(x)` of the source is written `x % 2 ^ 32`.
* Byte slices are `List UInt8`; Go strings are `String`.
* The process-wide variables `supportedIoctls` and `crashOnUnsupportedIoctl`,
  the dump file, and the collaborators that are not part of the file
  (`proto.Unmarshal`, package `nvgpu`) are explicit arguments.
* Logging has no effect on the values computed and is left out.
-/

set_option autoImplicit false

/-! ## Collaborators outside the file -/

namespace linux

/-- Modelled from the spec: width of the "number" bitfield of an ioctl request
code in the platform encoding (package `pkg/abi/linux` is not among the
sources). -/
def IOC_NRBITS : Nat := 8

/-- Modelled from the spec: position of the "number" bitfield of an ioctl
request code (package `pkg/abi/linux` is not among the sources). -/
def IOC_NRSHIFT : Nat := 0

/-- Modelled from the spec: `linux.IOC_NR`, the command-number bitfield (the low
8 bits) of a 32-bit request code; package `pkg/abi/linux` is not among the
sources. -/
def IOC_NR (nr : Nat) : Nat :=
  (nr >>> IOC_NRSHIFT) &&& (2 ^ IOC_NRBITS - 1)

end linux

namespace binary

/-- Little-endian value of a byte sequence (`binary.LittleEndian.UintN`). -/
def leValue : List UInt8 → Nat
  | [] => 0
  | b :: bs => b.toNat + 256 * leValue bs

/-- The `width` little-endian bytes of `n`, as written by `binary.Write` for an
unsigned integer of that width (the value is reduced modulo `256 ^ width`). -/
def leBytes : (width : Nat) → (n : Nat) → List UInt8
  | 0, _ => []
  | w + 1, n => UInt8.ofNat (n % 256) :: leBytes w (n / 256)

/-- Reading of a little-endian `uint32` at the head of `src`; `src` has at least
four bytes wherever the program calls it. -/
def Uint32 (src : List UInt8) : Nat :=
  leValue (src.take 4)

end binary

namespace nvgpu

/-- Constants and parameter layouts of package `pkg/abi/nvgpu`, which is not
among the sources; they are taken as parameters. The three sizes are `uint32`
values, the two allocation layouts have different sizes, and the two escape
codes are different constants of one `switch`. -/
structure ABI where
  RM_GSS_LEGACY_MASK : Nat
  NV2081_BINAPI : Nat
  NV_ERR_INVALID_CLASS : Nat
  NV_ESC_RM_CONTROL : Nat
  NV_ESC_RM_ALLOC : Nat
  SizeofNVOS54Parameters : Nat
  SizeofNVOS21Parameters : Nat
  SizeofNVOS64Parameters : Nat
  /-- Byte offset of field `Cmd` in `NVOS54_PARAMETERS`. -/
  NVOS54_Cmd : Nat
  /-- Byte offset of field `Status` in `NVOS54_PARAMETERS`. -/
  NVOS54_Status : Nat
  /-- Byte offset of field `HClass` in `NVOS21_PARAMETERS`. -/
  NVOS21_HClass : Nat
  /-- Byte offset of field `Status` in `NVOS21_PARAMETERS`. -/
  NVOS21_Status : Nat
  /-- Byte offset of field `HClass` in `NVOS64_PARAMETERS`. -/
  NVOS64_HClass : Nat
  /-- Byte offset of field `Status` in `NVOS64_PARAMETERS`. -/
  NVOS64_Status : Nat
  sizeofNVOS54_lt : SizeofNVOS54Parameters < 2 ^ 32
  sizeofNVOS21_lt : SizeofNVOS21Parameters < 2 ^ 32
  sizeofNVOS64_lt : SizeofNVOS64Parameters < 2 ^ 32
  sizeofNVOS21_ne : SizeofNVOS21Parameters ≠ SizeofNVOS64Parameters
  esc_ne : NV_ESC_RM_CONTROL ≠ NV_ESC_RM_ALLOC

/-- The fields of `NVOS54_PARAMETERS` the sniffer reads. -/
structure NVOS54_PARAMETERS where
  Cmd : Nat
  Status : Nat
  deriving DecidableEq, Repr

/-- The accessors `GetHClass` and `GetStatus` of the allocation parameter object
returned by `GetRmAllocParamObj`. -/
structure RmAllocParamType where
  HClass : Nat
  Status : Nat
  deriving DecidableEq, Repr

/-- `NVOS54_PARAMETERS.UnmarshalBytes`: each field is read little-endian at its
offset. -/
def ABI.UnmarshalNVOS54 (nv : ABI) (src : List UInt8) : NVOS54_PARAMETERS :=
  { Cmd := binary.Uint32 (src.drop nv.NVOS54_Cmd)
    Status := binary.Uint32 (src.drop nv.NVOS54_Status) }

/-- `GetRmAllocParamObj(isNVOS64)` followed by `UnmarshalBytes`: the extended
layout `NVOS64_PARAMETERS` when `isNVOS64`, the default `NVOS21_PARAMETERS`
otherwise. -/
def ABI.UnmarshalRmAlloc (nv : ABI) (isNVOS64 : Bool) (src : List UInt8) :
    RmAllocParamType :=
  if isNVOS64 then
    { HClass := binary.Uint32 (src.drop nv.NVOS64_HClass)
      Status := binary.Uint32 (src.drop nv.NVOS64_Status) }
  else
    { HClass := binary.Uint32 (src.drop nv.NVOS21_HClass)
      Status := binary.Uint32 (src.drop nv.NVOS21_Status) }

/-- A concrete ABI for evaluating the program on examples: the values of the
NVIDIA driver headers (escape codes 0x2a and 0x2b, 32-byte control and default
allocation layouts, 48-byte extended allocation layout). -/
def reference : ABI where
  RM_GSS_LEGACY_MASK := 0x8000
  NV2081_BINAPI := 0x2081
  NV_ERR_INVALID_CLASS := 0x22
  NV_ESC_RM_CONTROL := 0x2a
  NV_ESC_RM_ALLOC := 0x2b
  SizeofNVOS54Parameters := 32
  SizeofNVOS21Parameters := 32
  SizeofNVOS64Parameters := 48
  NVOS54_Cmd := 8
  NVOS54_Status := 28
  NVOS21_HClass := 12
  NVOS21_Status := 28
  NVOS64_HClass := 12
  NVOS64_Status := 40
  sizeofNVOS54_lt := by decide
  sizeofNVOS21_lt := by decide
  sizeofNVOS64_lt := by decide
  sizeofNVOS21_ne := by decide
  esc_ne := by decide

end nvgpu

namespace pb

/-- The decoded call record `pb.Ioctl` with the fields its getters return:
`GetFdPath`, `GetRequest` (uint64), `GetRet` (int64), `GetArgData`,
`GetParamsData`. -/
structure Ioctl where
  FdPath : String
  Request : Nat
  Ret : Int
  ArgData : List UInt8
  ParamsData : List UInt8
  deriving DecidableEq

end pb

/-! ## The sniffer -/

namespace sniffer

def uvmDevPath : String := "/dev/nvidia-uvm"

def ctlDevPath : String := "/dev/nvidiactl"

/-- The class `\d` of the regular expression: an ASCII decimal digit. -/
def isDigit (c : Char) : Bool :=
  decide ('0' ≤ c ∧ c ≤ '9')

/-- The literal part of the pattern of `deviceDevPath`. -/
def deviceDevLiteral : List Char := "/dev/nvidia".toList

/-- The pattern `/dev/nvidia(\d+)` matches at the very start of `cs`: the
literal, then one or more digits. -/
def deviceDevPath.matchesAtStart (cs : List Char) : Bool :=
  deviceDevLiteral.isPrefixOf cs &&
    decide (1 ≤ ((cs.drop deviceDevLiteral.length).takeWhile isDigit).length)

/-- `deviceDevPath.MatchString(s)` for `deviceDevPath =
regexp.MustCompile("/dev/nvidia(\d+)")`: the pattern has no anchors, so
`MatchString` reports whether it matches starting at some position of `s`. -/
def deviceDevPath.MatchString (s : String) : Bool :=
  s.toList.tails.any deviceDevPath.matchesAtStart

/-- The type `ioctlClass`, with its constants in the order of the `iota`
declaration (`frontend = 0`, ..., `unknown = 4`). -/
inductive ioctlClass where
  | frontend
  | uvm
  | control
  | alloc
  | unknown
  deriving DecidableEq, Repr

/-- Numeric value of a class constant. -/
def ioctlClass.toNat : ioctlClass → Nat
  | .frontend => 0
  | .uvm => 1
  | .control => 2
  | .alloc => 3
  | .unknown => 4

def _numClasses : Nat := 5

/-- The classes visited by `for c := ioctlClass(0); c < _numClasses; c++`. -/
def classRange : List ioctlClass :=
  [.frontend, .uvm, .control, .alloc, .unknown]

def ioctlClass.String (c : ioctlClass) : String :=
  match c with
  | .frontend => "Frontend"
  | .uvm => "UVM"
  | .control => "Control"
  | .alloc => "Alloc"
  | .unknown => "Unknown"

/-- The parsed ioctl; the field `class` of the source is `cls` here, `subclass`
and `status` are `uint32` values. -/
structure Ioctl where
  pb : pb.Ioctl
  cls : ioctlClass
  subclass : Nat
  status : Nat
  deriving DecidableEq

/-- The value of the process-wide `supportedIoctls`: one set of `uint32` keys
per class. -/
abbrev SupportedIoctls := ioctlClass → Finset Nat

/-- `Init` installs an empty set for every class. -/
def Init : SupportedIoctls :=
  fun _ => ∅

def Ioctl.IsSupported (nv : nvgpu.ABI) (supportedIoctls : SupportedIoctls)
    (i : Ioctl) : Bool :=
  if i.cls = .control ∧ i.subclass &&& nv.RM_GSS_LEGACY_MASK ≠ 0 then
    true
  else if i.cls = .control ∧ (i.subclass >>> 16) &&& 0xffff = nv.NV2081_BINAPI then
    true
  else if i.cls = .alloc ∧ i.status = nv.NV_ERR_INVALID_CLASS then
    false
  else
    decide (i.subclass ∈ supportedIoctls i.cls)

/-- The map `unsupported` of `Results`: a class is either absent (`none`) or
bound to a sequence of subclasses. -/
structure Results where
  unsupported : ioctlClass → Option (List Nat)

/-- Reading `r.unsupported[class]`: the nil slice for an absent key. -/
def Results.get (r : Results) (c : ioctlClass) : List Nat :=
  (r.unsupported c).getD []

/-- Assignment `r.unsupported[class] = subs`. -/
def Results.set (r : Results) (c : ioctlClass) (subs : List Nat) : Results :=
  ⟨fun k => if k = c then some subs else r.unsupported k⟩

/-- The result of `sort.Slice(s, func(i, j) bool { return s[i] < s[j] })` on a
slice of numbers: its ascending arrangement. -/
def sortSlice (s : List Nat) : List Nat :=
  s.insertionSort (fun a b => a ≤ b)

/-- The body of the loop of `Merge` for the key `cls`, when `other` has it. -/
def Results.mergeKey (other : Results) (r : Results) (cls : ioctlClass) : Results :=
  match other.unsupported cls with
  | none => r
  | some subs => r.set cls (sortSlice (r.get cls ++ subs))

/-- `Merge`; `other` is `none` for a nil pointer. The keys of `other` are
visited in class order; no iteration touches another key. -/
def Results.Merge (r : Results) (other : Option Results) : Results :=
  match other with
  | none => r
  | some o => classRange.foldl (Results.mergeKey o) r

def NewResults : Results :=
  ⟨fun _ => none⟩

/-- The number of keys of the map, `len(r.unsupported)`. -/
def Results.len (r : Results) : Nat :=
  (classRange.filter (fun c => (r.unsupported c).isSome)).length

def Results.HasUnsupportedIoctl (r : Results) : Bool :=
  decide (r.len > 0)

def Results.AddUnsupportedIoctl (r : Results) (ioctl : Ioctl) : Results :=
  r.set ioctl.cls (r.get ioctl.cls ++ [ioctl.subclass])

/-- The verb `%#x` of package `fmt` on an unsigned integer. -/
def fmtHex (n : Nat) : String :=
  "0x" ++ String.mk (Nat.toDigits 16 n)

/-- One pass of the loop body of `Results.String` for `cls`, on the builder
`sb` and the receiver `r` (whose slice for `cls` is sorted in place). -/
def Results.stringStep (acc : String × Results) (cls : ioctlClass) :
    String × Results :=
  let sb := acc.1
  let r := acc.2
  if (r.get cls).length = 0 then
    (sb, r)
  else
    let sb := sb ++ cls.String ++ ":\n"
    let r := r.set cls (sortSlice (r.get cls))
    let sb := (r.get cls).foldl (fun sb subclass => sb ++ "\t" ++ fmtHex subclass ++ "\n") sb
    (sb, r)

/-- `Results.String`: the text returned, and the receiver after the call. -/
def Results.String (r : Results) : String × Results :=
  classRange.foldl Results.stringStep ("", r)

def ParseIoctlOutput (nv : nvgpu.ABI) (ioctl : pb.Ioctl) : Except String Ioctl :=
  let parsedIoctl : Ioctl := { pb := ioctl, cls := .frontend, subclass := 0, status := 0 }
  let path := ioctl.FdPath
  if path = uvmDevPath then
    .ok { parsedIoctl with cls := .uvm, subclass := ioctl.Request % 2 ^ 32 }
  else if path = ctlDevPath ∨ deviceDevPath.MatchString path = true then
    let parsedIoctl : Ioctl :=
      { parsedIoctl with cls := .frontend, subclass := linux.IOC_NR (ioctl.Request % 2 ^ 32) }
    if parsedIoctl.subclass = nv.NV_ESC_RM_CONTROL then
      let data := ioctl.ArgData
      if data.length % 2 ^ 32 ≠ nv.SizeofNVOS54Parameters then
        .error "unexpected number of bytes"
      else
        let ioctlParams := nv.UnmarshalNVOS54 data
        .ok { parsedIoctl with
              cls := .control, subclass := ioctlParams.Cmd, status := ioctlParams.Status }
    else if parsedIoctl.subclass = nv.NV_ESC_RM_ALLOC then
      let data := ioctl.ArgData
      let isNVOS64 : Option Bool :=
        if data.length % 2 ^ 32 = nv.SizeofNVOS21Parameters then some false
        else if data.length % 2 ^ 32 = nv.SizeofNVOS64Parameters then some true
        else none
      match isNVOS64 with
      | none => .error "unexpected number of bytes"
      | some isNVOS64 =>
        let ioctlParams := nv.UnmarshalRmAlloc isNVOS64 data
        .ok { parsedIoctl with
              cls := .alloc, subclass := ioctlParams.HClass, status := ioctlParams.Status }
    else
      .ok parsedIoctl
  else
    .ok { parsedIoctl with cls := .unknown, subclass := linux.IOC_NR (ioctl.Request % 2 ^ 32) }

/-- What `ParseIoctls` reads from the process environment: whether a dump file
is configured and could be opened (`GVISOR_IOCTL_DUMP_FILE`), the abort toggle
(`GVISOR_IOCTL_SNIFFER_ENFORCE_COMPATIBILITY` equal to `INSTANT`), and the
largest length for which `make([]byte, size)` succeeds on the platform; it is
below 2^63 since `make` panics on every length that does not fit in an `int`. -/
structure Config where
  dumpFile : Bool
  crashOnUnsupportedIoctl : Bool
  maxAlloc : Nat
  maxAlloc_lt : maxAlloc < 2 ^ 63

/-- The state of the loop of `ParseIoctls`: the results so far and the bytes
appended to the dump file so far. -/
structure LoopState where
  res : Results
  dump : List UInt8

/-- How `ParseIoctls` ends: it returns `res`, the process exits with status 1
(`os.Exit(1)`), or `make` panics on a length it cannot allocate. -/
inductive Outcome where
  | returned (st : LoopState)
  | exited (st : LoopState)
  | panicked (st : LoopState)

/-- The payload chosen for a dump entry. -/
def dumpData (parsedIoctl : Ioctl) : List UInt8 :=
  if (parsedIoctl.cls = .control ∨ parsedIoctl.cls = .alloc) ∧
      parsedIoctl.pb.ParamsData.length > 0 then
    parsedIoctl.pb.ParamsData
  else
    parsedIoctl.pb.ArgData

/-- The bytes of one dump entry: the header buffer, then the payload. -/
def dumpEntry (parsedIoctl : Ioctl) : List UInt8 :=
  let header : List UInt8 :=
    binary.leBytes 4 0x4E564944 ++
    binary.leBytes 8 parsedIoctl.pb.Request ++
    binary.leBytes 4 0 ++
    binary.leBytes 4 (parsedIoctl.subclass % 2 ^ 32) ++
    binary.leBytes 4 ((dumpData parsedIoctl).length % 2 ^ 32)
  header ++ dumpData parsedIoctl

/-- The loop body of `ParseIoctls` from the call of `ParseIoctlOutput` on: the
loop state after it, and whether the loop goes on (`false` when the process
exits through `os.Exit(1)`). -/
def processIoctl (nv : nvgpu.ABI) (supportedIoctls : SupportedIoctls) (cfg : Config)
    (st : LoopState) (ioctlPB : pb.Ioctl) : LoopState × Bool :=
  match ParseIoctlOutput nv ioctlPB with
  | .error _ => (st, true)
  | .ok parsedIoctl =>
    let dump :=
      if cfg.dumpFile = true ∧ parsedIoctl.pb.Ret = -1 ∧
          (parsedIoctl.cls = .control ∨ parsedIoctl.cls = .alloc) then
        st.dump ++ dumpEntry parsedIoctl
      else
        st.dump
    if parsedIoctl.IsSupported nv supportedIoctls = false then
      let res := st.res.AddUnsupportedIoctl parsedIoctl
      if cfg.crashOnUnsupportedIoctl = true then
        (⟨res, dump⟩, false)
      else
        (⟨res, dump⟩, true)
    else
      (⟨st.res, dump⟩, true)

/-- The loop of `ParseIoctls` on the unread bytes `r`, with `fuel` bounding the
number of iterations; `none` when the fuel does not suffice. `unmarshal` stands
for `proto.Unmarshal` into a fresh `pb.Ioctl`. -/
def parseLoop (nv : nvgpu.ABI) (supportedIoctls : SupportedIoctls) (cfg : Config)
    (unmarshal : List UInt8 → Option pb.Ioctl) :
    (fuel : Nat) → (r : List UInt8) → LoopState → Option Outcome
  | 0, _, _ => none
  | fuel + 1, r, st =>
    -- binary.Read of the size: io.EOF on no byte, io.ErrUnexpectedEOF on 1 to 7
    if r.length < 8 then
      some (.returned st)
    else
      let size := binary.leValue (r.take 8)
      let r := r.drop 8
      if size > cfg.maxAlloc then
        some (.panicked st)
      else if r.length < size then
        some (.returned st)
      else
        let buf := r.take size
        let r := r.drop size
        match unmarshal buf with
        | none => some (.returned st)
        | some ioctlPB =>
          match processIoctl nv supportedIoctls cfg st ioctlPB with
          | (st, false) => some (.exited st)
          | (st, true) => parseLoop nv supportedIoctls cfg unmarshal fuel r st

/-- `ParseIoctls` on the bytes of the reader: every iteration that continues
reads at least the 8 bytes of a size, so `r.length / 8 + 1` iterations are
enough. -/
def ParseIoctls (nv : nvgpu.ABI) (supportedIoctls : SupportedIoctls) (cfg : Config)
    (unmarshal : List UInt8 → Option pb.Ioctl) (r : List UInt8) : Option Outcome :=
  parseLoop nv supportedIoctls cfg unmarshal (r.length / 8 + 1) r ⟨NewResults, []⟩

/-- The loop state after the records `ioctls` have gone through the loop body
of `ParseIoctls` one after the other. -/
def processAll (nv : nvgpu.ABI) (supportedIoctls : SupportedIoctls) (cfg : Config)
    (st : LoopState) (ioctls : List pb.Ioctl) : LoopState :=
  ioctls.foldl (fun st ioctlPB => (processIoctl nv supportedIoctls cfg st ioctlPB).1) st

/-- Whether `ParseIoctlOutput` returns without an error. -/
def classifies (nv : nvgpu.ABI) (ioctl : pb.Ioctl) : Bool :=
  match ParseIoctlOutput nv ioctl with
  | .ok _ => true
  | .error _ => false

/-- The results that can be built from `NewResults` by `AddUnsupportedIoctl`
and `Merge`, the operand of a `Merge` being nil or built the same way. -/
inductive Reachable : Results → Prop where
  | new : Reachable NewResults
  | add (r : Results) (ioctl : Ioctl) : Reachable r → Reachable (r.AddUnsupportedIoctl ioctl)
  | merge (r o : Results) : Reachable r → Reachable o → Reachable (r.Merge (some o))
  | mergeNil (r : Results) : Reachable r → Reachable (r.Merge none)

/-! ## The specification's wording, for comparison with the program -/

/-- The frontend paths as the specification words them: the control device
path, or the text "/dev/nvidia" followed by one or more decimal digits and
nothing else. -/
def specFrontendPath (path : String) : Bool :=
  decide (path = ctlDevPath) ||
    (deviceDevLiteral.isPrefixOf path.toList &&
      !(path.toList.drop deviceDevLiteral.length).isEmpty &&
      (path.toList.drop deviceDevLiteral.length).all isDigit)

/-- Concatenation of a list of texts, in order. -/
def concatText : List String → String
  | [] => ""
  | s :: ss => s ++ concatText ss

/-- One line of the report as the specification words it: a tab, the value in
0x-prefixed lowercase hexadecimal, a newline. -/
def specLine (subclass : Nat) : String :=
  "\t" ++ ("0x" ++ String.mk (Nat.toDigits 16 subclass)) ++ "\n"

/-- The name under which each category is printed in the report: Frontend,
UVM (the Uvm category, in capitals), Control, Alloc, Unknown. -/
def specCategoryName : ioctlClass → String
  | .frontend => "Frontend"
  | .uvm => "UVM"
  | .control => "Control"
  | .alloc => "Alloc"
  | .unknown => "Unknown"

/-- The part of the report for one category: its name, a colon and a newline,
then one line for each value of `subs` in the order given. -/
def specSection (c : ioctlClass) (subs : List Nat) : String :=
  specCategoryName c ++ ":\n" ++ concatText (subs.map specLine)

/-- The report as the specification words it, for the sequences `ordered`: the
categories in the fixed order Frontend, Uvm, Control, Alloc, Unknown, those
with an empty sequence skipped. -/
def specRender (ordered : ioctlClass → List Nat) : String :=
  concatText
    (([.frontend, .uvm, .control, .alloc, .unknown].filter
        (fun c => !(ordered c).isEmpty)).map
      (fun c => specSection c (ordered c)))

/-- One framed record of the input stream as the specification words it: the
8-byte little-endian length of the payload, then the payload. -/
def frame (payload : List UInt8) : List UInt8 :=
  binary.leBytes 8 payload.length ++ payload

/-- The stream made of the framed records of `payloads`, in order. -/
def framedStream : List (List UInt8) → List UInt8
  | [] => []
  | payload :: payloads => frame payload ++ framedStream payloads

/-- A payload that `ParseIoctls` can read back: the buffer for it can be
allocated. -/
def readable (cfg : Config) (payload : List UInt8) : Prop :=
  payload.length ≤ cfg.maxAlloc

/-- A list of payloads of complete, decodable records: each can be read back
and `proto.Unmarshal` accepts it. -/
def decodable (cfg : Config) (unmarshal : List UInt8 → Option pb.Ioctl)
    (payloads : List (List UInt8)) : Prop :=
  ∀ payload ∈ payloads, readable cfg payload ∧ (unmarshal payload).isSome = true

/-- Whether the record in `payload` decodes and classifies without an error. -/
def classifiesPayload (nv : nvgpu.ABI) (unmarshal : List UInt8 → Option pb.Ioctl)
    (payload : List UInt8) : Bool :=
  match unmarshal payload with
  | some ioctl => classifies nv ioctl
  | none => false

/-- A truncated tail whose announced length can be allocated: fewer than the 8
bytes of a size, or a size followed by fewer bytes than it announces. -/
def truncatedTail (cfg : Config) (tail : List UInt8) : Prop :=
  tail.length < 8 ∨
    ∃ (size : Nat) (part : List UInt8),
      tail = binary.leBytes 8 size ++ part ∧ size ≤ cfg.maxAlloc ∧ part.length < size

/-- The subclasses the specification expects under the class `c` for the
records `ioctls`: those of the records that classify into `c` and are not
supported, in the order of the records. -/
def specUnsupported (nv : nvgpu.ABI) (supportedIoctls : SupportedIoctls)
    (c : ioctlClass) (ioctls : List pb.Ioctl) : List Nat :=
  ioctls.filterMap (fun ioctl =>
    match ParseIoctlOutput nv ioctl with
    | .ok parsedIoctl =>
      if parsedIoctl.cls = c ∧ parsedIoctl.IsSupported nv supportedIoctls = false then
        some parsedIoctl.subclass
      else
        none
    | .error _ => none)

/-- The part of the report for one category, empty when the category has no
value. -/
def sectionOrEmpty (c : ioctlClass) (subs : List Nat) : String :=
  if subs.isEmpty then "" else specSection c subs

/-! ## Concrete inputs used in the examples -/

/-- A record on the control device with the RM_CONTROL escape code whose
argument payload has 2^32 + 32 bytes. -/
def oversizedControlRecord : pb.Ioctl :=
  ⟨"/dev/nvidiactl", 0x2a, -1, List.replicate (2 ^ 32 + 32) 0, []⟩

/-- A record on the first GPU device with the RM_CONTROL escape code and a
3-byte argument payload. -/
def shortControlRecord : pb.Ioctl :=
  ⟨"/dev/nvidia0", 0xc020462a, -1, [1, 2, 3], []⟩

/-- A classification with the given class and subclass, as `AddUnsupportedIoctl`
receives it. -/
def sampleIoctl (cls : ioctlClass) (subclass : Nat) : Ioctl :=
  ⟨⟨"", 0, 0, [], []⟩, cls, subclass, 0⟩

/-- UVM 0x4b then UVM 0x21. -/
def sampleA : Results :=
  (NewResults.AddUnsupportedIoctl (sampleIoctl .uvm 0x4b)).AddUnsupportedIoctl
    (sampleIoctl .uvm 0x21)

/-- UVM 0x21 then UVM 0x4b: the values of `sampleA` recorded in the other order. -/
def sampleA' : Results :=
  (NewResults.AddUnsupportedIoctl (sampleIoctl .uvm 0x21)).AddUnsupportedIoctl
    (sampleIoctl .uvm 0x4b)

/-- Control 0x20800110 then UVM 0x21. -/
def sampleB : Results :=
  (NewResults.AddUnsupportedIoctl (sampleIoctl .control 0x20800110)).AddUnsupportedIoctl
    (sampleIoctl .uvm 0x21)

/-- Frontend 0xd6. -/
def sampleC : Results :=
  NewResults.AddUnsupportedIoctl (sampleIoctl .frontend 0xd6)

/-- A result with a value in every category, recorded out of order and with a
duplicate under UVM. -/
def sampleAll : Results :=
  (((((((NewResults.AddUnsupportedIoctl (sampleIoctl .unknown 0x1)).AddUnsupportedIoctl
    (sampleIoctl .alloc 0xc56f)).AddUnsupportedIoctl
    (sampleIoctl .uvm 0x21)).AddUnsupportedIoctl
    (sampleIoctl .uvm 0x4b)).AddUnsupportedIoctl
    (sampleIoctl .alloc 0x80)).AddUnsupportedIoctl
    (sampleIoctl .control 0x20800110)).AddUnsupportedIoctl
    (sampleIoctl .uvm 0x21)).Merge (some sampleC)

/-- The values of `sampleAll` in ascending order, category by category. -/
def sampleAllOrdered : ioctlClass → List Nat
  | .frontend => [0xd6]
  | .uvm => [0x21, 0x21, 0x4b]
  | .control => [0x20800110]
  | .alloc => [0x80, 0xc56f]
  | .unknown => [0x1]

/-- A configuration with the dump file open and the abort toggle off. -/
def sampleConfig : Config :=
  ⟨true, false, 2 ^ 48, by decide⟩

/-- A UVM record with request code 0x30000001. -/
def sampleUvmRecord : pb.Ioctl :=
  ⟨"/dev/nvidia-uvm", 0x30000001, 0, [], []⟩

/-- A pre-call RM_CONTROL record on "/dev/nvidia0" with `Cmd` 0x20800110,
`Status` 0x56 and a 2-byte params payload. -/
def sampleControlRecord : pb.Ioctl :=
  ⟨"/dev/nvidia0", 0xc020462a, -1,
    [1, 0, 0, 0, 2, 0, 0, 0, 0x10, 0x01, 0x80, 0x20, 0, 0, 0, 0,
     0, 0, 0, 0, 0, 0, 0, 0, 0, 0, 0, 0, 0x56, 0, 0, 0], [0xaa, 0xbb]⟩

/-- The classification of `sampleControlRecord`. -/
def sampleControlIoctl : Ioctl :=
  ⟨sampleControlRecord, .control, 0x20800110, 0x56⟩

/-- An RM_CONTROL record on "/dev/nvidiactl" whose `Cmd` 0x8001 has the legacy
bit set. -/
def sampleLegacyRecord : pb.Ioctl :=
  ⟨"/dev/nvidiactl", 0xc020462a, 0,
    [1, 0, 0, 0, 2, 0, 0, 0, 0x01, 0x80, 0, 0, 0, 0, 0, 0,
     0, 0, 0, 0, 0, 0, 0, 0, 0, 0, 0, 0, 0, 0, 0, 0], []⟩

/-- A decoder for the examples: the one-byte payloads 1, 2, 3 and 4 stand for
four records, every other payload is malformed. -/
def sampleUnmarshal (buf : List UInt8) : Option pb.Ioctl :=
  if buf = [1] then some sampleUvmRecord
  else if buf = [2] then some shortControlRecord
  else if buf = [3] then some sampleLegacyRecord
  else if buf = [4] then some sampleControlRecord
  else none

/-! ## Arithmetic of the bitfields -/

theorem shift16_and_eq (s : Nat) : (s >>> 16) &&& 0xffff = s / 2 ^ 16 % 2 ^ 16 := by
  rw [Nat.shiftRight_eq_div_pow]
  exact Nat.and_pow_two_sub_one_eq_mod _ 16

theorem IOC_NR_eq_mod (nr : Nat) : linux.IOC_NR nr = nr % 256 := by
  unfold linux.IOC_NR linux.IOC_NRSHIFT linux.IOC_NRBITS
  rw [Nat.shiftRight_zero]
  exact Nat.and_pow_two_sub_one_eq_mod _ 8

/-! ## Device paths -/

theorem takeWhile_eq_self_of_all {α : Type} (p : α → Bool) :
    ∀ l : List α, l.all p = true → l.takeWhile p = l
  | [], _ => rfl
  | a :: l, h => by
    simp only [List.all_cons, Bool.and_eq_true] at h
    simp [List.takeWhile_cons, h.1, takeWhile_eq_self_of_all p l h.2]

theorem matchesAtStart_of_numbered (cs : List Char)
    (h1 : deviceDevLiteral.isPrefixOf cs = true)
    (h2 : (cs.drop deviceDevLiteral.length).isEmpty = false)
    (h3 : (cs.drop deviceDevLiteral.length).all isDigit = true) :
    deviceDevPath.matchesAtStart cs = true := by
  unfold deviceDevPath.matchesAtStart
  rw [h1, takeWhile_eq_self_of_all _ _ h3]
  cases h : cs.drop deviceDevLiteral.length with
  | nil => rw [h] at h2; simp at h2
  | cons a l => simp

theorem any_tails_of_self {p : List Char → Bool} (cs : List Char) (h : p cs = true) :
    cs.tails.any p = true := by
  cases cs <;> simp [List.tails, h]

/-- Every path the specification calls a frontend path takes the frontend
branch of the classifier. -/
theorem frontend_of_specFrontendPath (path : String) (h : specFrontendPath path = true) :
    path = ctlDevPath ∨ deviceDevPath.MatchString path = true := by
  unfold specFrontendPath at h
  simp only [Bool.or_eq_true, Bool.and_eq_true, decide_eq_true_eq, Bool.not_eq_true'] at h
  rcases h with h | ⟨⟨h1, h2⟩, h3⟩
  · exact Or.inl h
  · exact Or.inr (any_tails_of_self _ (matchesAtStart_of_numbered _ h1 h2 h3))

theorem uvmDevPath_not_frontend :
    ¬ (uvmDevPath = ctlDevPath ∨ deviceDevPath.MatchString uvmDevPath = true) := by
  decide

theorem frontend_ne_uvmDevPath (path : String)
    (h : path = ctlDevPath ∨ deviceDevPath.MatchString path = true) : path ≠ uvmDevPath := by
  intro e
  subst e
  exact uvmDevPath_not_frontend h

/-! ## The three branches of the classifier -/

theorem ParseIoctlOutput_uvm (nv : nvgpu.ABI) (ioctl : pb.Ioctl)
    (hu : ioctl.FdPath = uvmDevPath) :
    ParseIoctlOutput nv ioctl = .ok ⟨ioctl, .uvm, ioctl.Request % 2 ^ 32, 0⟩ := by
  unfold ParseIoctlOutput
  simp only [if_pos hu]

theorem ParseIoctlOutput_frontend (nv : nvgpu.ABI) (ioctl : pb.Ioctl)
    (hp : ioctl.FdPath = ctlDevPath ∨ deviceDevPath.MatchString ioctl.FdPath = true) :
    ParseIoctlOutput nv ioctl =
      if linux.IOC_NR (ioctl.Request % 2 ^ 32) = nv.NV_ESC_RM_CONTROL then
        if ioctl.ArgData.length % 2 ^ 32 ≠ nv.SizeofNVOS54Parameters then
          .error "unexpected number of bytes"
        else
          .ok ⟨ioctl, .control, (nv.UnmarshalNVOS54 ioctl.ArgData).Cmd,
                (nv.UnmarshalNVOS54 ioctl.ArgData).Status⟩
      else if linux.IOC_NR (ioctl.Request % 2 ^ 32) = nv.NV_ESC_RM_ALLOC then
        if ioctl.ArgData.length % 2 ^ 32 = nv.SizeofNVOS21Parameters then
          .ok ⟨ioctl, .alloc, (nv.UnmarshalRmAlloc false ioctl.ArgData).HClass,
                (nv.UnmarshalRmAlloc false ioctl.ArgData).Status⟩
        else if ioctl.ArgData.length % 2 ^ 32 = nv.SizeofNVOS64Parameters then
          .ok ⟨ioctl, .alloc, (nv.UnmarshalRmAlloc true ioctl.ArgData).HClass,
                (nv.UnmarshalRmAlloc true ioctl.ArgData).Status⟩
        else .error "unexpected number of bytes"
      else .ok ⟨ioctl, .frontend, linux.IOC_NR (ioctl.Request % 2 ^ 32), 0⟩ := by
  unfold ParseIoctlOutput
  simp only [if_neg (frontend_ne_uvmDevPath _ hp), if_pos hp]
  split_ifs <;> rfl

theorem ParseIoctlOutput_other (nv : nvgpu.ABI) (ioctl : pb.Ioctl)
    (hu : ioctl.FdPath ≠ uvmDevPath)
    (hp : ¬ (ioctl.FdPath = ctlDevPath ∨ deviceDevPath.MatchString ioctl.FdPath = true)) :
    ParseIoctlOutput nv ioctl =
      .ok ⟨ioctl, .unknown, linux.IOC_NR (ioctl.Request % 2 ^ 32), 0⟩ := by
  unfold ParseIoctlOutput
  simp only [if_neg hu, if_neg hp]

/-! ## The classifier on the UVM path -/

/-- C1: on the UVM path the classifier succeeds with category Uvm whatever the
payloads are, but the subcategory it stores is the request code truncated to 32
bits (`ioctlSubclass(ioctl.GetRequest())`), not its command-number bitfield: for
the request code 0x30000001 it stores 0x30000001, while the command number is
0x01. -/
theorem uvm_subclass_is_truncated_request :
    (∀ (nv : nvgpu.ABI) (request : Nat) (ret : Int) (argData paramsData : List UInt8),
      ParseIoctlOutput nv ⟨"/dev/nvidia-uvm", request, ret, argData, paramsData⟩
        = .ok ⟨⟨"/dev/nvidia-uvm", request, ret, argData, paramsData⟩, .uvm,
                request % 2 ^ 32, 0⟩) ∧
    ParseIoctlOutput nvgpu.reference ⟨"/dev/nvidia-uvm", 0x30000001, 0, [], []⟩
        = .ok ⟨⟨"/dev/nvidia-uvm", 0x30000001, 0, [], []⟩, .uvm, 0x30000001, 0⟩ ∧
    linux.IOC_NR (0x30000001 % 2 ^ 32) = 0x01 := by
  refine ⟨?_, rfl, by decide⟩
  intro nv request ret argData paramsData
  rfl

/-! ## The supportability predicate -/

/-- C2: `IsSupported` is true exactly when the class is Control and the
subclass has a bit of the legacy mask set or has the BINAPI constant as its high
16 bits, or when it is not an Alloc with the invalid-class status and the
subclass belongs to the supported set of its class; with the empty sets of
`Init` only the two Control exceptions remain. -/
theorem IsSupported_iff (nv : nvgpu.ABI) (supportedIoctls : SupportedIoctls) (i : Ioctl) :
    (i.IsSupported nv supportedIoctls = true ↔
      (i.cls = .control ∧
        (i.subclass &&& nv.RM_GSS_LEGACY_MASK ≠ 0 ∨
          i.subclass / 2 ^ 16 % 2 ^ 16 = nv.NV2081_BINAPI)) ∨
      (¬ (i.cls = .alloc ∧ i.status = nv.NV_ERR_INVALID_CLASS) ∧
        i.subclass ∈ supportedIoctls i.cls)) ∧
    (i.IsSupported nv Init = true ↔
      i.cls = .control ∧
        (i.subclass &&& nv.RM_GSS_LEGACY_MASK ≠ 0 ∨
          i.subclass / 2 ^ 16 % 2 ^ 16 = nv.NV2081_BINAPI)) := by
  have key : ∀ S : SupportedIoctls, (i.IsSupported nv S = true ↔
      (i.cls = .control ∧
        (i.subclass &&& nv.RM_GSS_LEGACY_MASK ≠ 0 ∨
          i.subclass / 2 ^ 16 % 2 ^ 16 = nv.NV2081_BINAPI)) ∨
      (¬ (i.cls = .alloc ∧ i.status = nv.NV_ERR_INVALID_CLASS) ∧
        i.subclass ∈ S i.cls)) := by
    intro S
    unfold Ioctl.IsSupported
    rw [shift16_and_eq]
    by_cases h1 : i.cls = .control ∧ i.subclass &&& nv.RM_GSS_LEGACY_MASK ≠ 0
    · rw [if_pos h1]
      simp only [true_iff]
      exact Or.inl ⟨h1.1, Or.inl h1.2⟩
    · rw [if_neg h1]
      by_cases h2 : i.cls = .control ∧ i.subclass / 2 ^ 16 % 2 ^ 16 = nv.NV2081_BINAPI
      · rw [if_pos h2]
        simp only [true_iff]
        exact Or.inl ⟨h2.1, Or.inr h2.2⟩
      · rw [if_neg h2]
        have hc : ¬ (i.cls = .control ∧
            (i.subclass &&& nv.RM_GSS_LEGACY_MASK ≠ 0 ∨
              i.subclass / 2 ^ 16 % 2 ^ 16 = nv.NV2081_BINAPI)) := by
          rintro ⟨hc, h | h⟩
          · exact h1 ⟨hc, h⟩
          · exact h2 ⟨hc, h⟩
        by_cases h3 : i.cls = .alloc ∧ i.status = nv.NV_ERR_INVALID_CLASS
        · rw [if_pos h3]
          constructor
          · intro h
            cases h
          · rintro (h | h)
            · exact absurd h hc
            · exact absurd h3 h.1
        · rw [if_neg h3, decide_eq_true_iff]
          constructor
          · intro h
            exact Or.inr ⟨h3, h⟩
          · rintro (h | h)
            · exact absurd h hc
            · exact h.2
  refine ⟨key supportedIoctls, ?_⟩
  rw [key Init]
  simp [Init]

/-- C3: a Control classification whose subclass has a bit of the legacy mask
set is supported, for every supported set and every status. -/
theorem IsSupported_legacy_control (nv : nvgpu.ABI) (supportedIoctls : SupportedIoctls)
    (i : Ioctl) (hclass : i.cls = .control)
    (hmask : i.subclass &&& nv.RM_GSS_LEGACY_MASK ≠ 0) :
    i.IsSupported nv supportedIoctls = true := by
  unfold Ioctl.IsSupported
  rw [if_pos ⟨hclass, hmask⟩]

/-- C3 at a concrete input: Control, subclass 0x8001, status 7, with the empty
sets of `Init`. -/
theorem IsSupported_legacy_control_witness :
    (⟨⟨"/dev/nvidiactl", 0x2a, 0, [], []⟩, .control, 0x8001, 7⟩ : Ioctl).IsSupported
      nvgpu.reference Init = true :=
  IsSupported_legacy_control nvgpu.reference Init _ rfl (by decide)

/-- C4: an Alloc classification whose status is the invalid-class code is
unsupported, for every supported set. -/
theorem IsSupported_alloc_invalid_class (nv : nvgpu.ABI)
    (supportedIoctls : SupportedIoctls) (i : Ioctl) (hclass : i.cls = .alloc)
    (hstatus : i.status = nv.NV_ERR_INVALID_CLASS) :
    i.IsSupported nv supportedIoctls = false := by
  unfold Ioctl.IsSupported
  have h1 : ¬ (i.cls = .control ∧ i.subclass &&& nv.RM_GSS_LEGACY_MASK ≠ 0) := by
    rintro ⟨h, _⟩
    rw [hclass] at h
    cases h
  have h2 : ¬ (i.cls = .control ∧ (i.subclass >>> 16) &&& 0xffff = nv.NV2081_BINAPI) := by
    rintro ⟨h, _⟩
    rw [hclass] at h
    cases h
  rw [if_neg h1, if_neg h2, if_pos ⟨hclass, hstatus⟩]

/-- C4 at a concrete input: the supported set of Alloc holds the subclass 5, and
the classification (Alloc, 5) with status 0x22 is still unsupported. -/
theorem IsSupported_alloc_invalid_class_witness :
    (5 : Nat) ∈ (fun _ => {5} : SupportedIoctls) ioctlClass.alloc ∧
    (⟨⟨"/dev/nvidiactl", 0x2b, 0, [], []⟩, .alloc, 5, 0x22⟩ : Ioctl).IsSupported
      nvgpu.reference (fun _ => {5}) = false :=
  ⟨by decide, IsSupported_alloc_invalid_class nvgpu.reference (fun _ => {5}) _ rfl rfl⟩

/-! ## Size checks of the classifier -/

theorem oversizedControlRecord_length :
    oversizedControlRecord.ArgData.length = 2 ^ 32 + 32 := by
  show (List.replicate (2 ^ 32 + 32) (0 : UInt8)).length = _
  rw [List.length_replicate]

theorem oversizedControlRecord_path : oversizedControlRecord.FdPath = ctlDevPath := rfl

theorem oversizedControlRecord_nr :
    linux.IOC_NR (oversizedControlRecord.Request % 2 ^ 32)
      = nvgpu.reference.NV_ESC_RM_CONTROL := by
  decide

theorem oversizedControlRecord_uint32_length :
    oversizedControlRecord.ArgData.length % 2 ^ 32
      = nvgpu.reference.SizeofNVOS54Parameters := by
  rw [oversizedControlRecord_length]
  decide

/-- The size check of the Control branch compares the length modulo 2^32: on a
frontend path with the RM_CONTROL escape code, a length that differs from
`SizeofNVOS54Parameters` modulo 2^32 gives an error, and the loop body of
`ParseIoctls` then leaves the results and the dump as they were and goes on; an
error is returned only on the frontend branch of the classifier, by one of its
two size checks. -/
theorem control_size_mismatch_is_skipped (nv : nvgpu.ABI) (ioctl : pb.Ioctl) :
    (specFrontendPath ioctl.FdPath = true →
      linux.IOC_NR (ioctl.Request % 2 ^ 32) = nv.NV_ESC_RM_CONTROL →
      ioctl.ArgData.length % 2 ^ 32 ≠ nv.SizeofNVOS54Parameters →
        ParseIoctlOutput nv ioctl = .error "unexpected number of bytes" ∧
        ∀ (supportedIoctls : SupportedIoctls) (cfg : Config) (st : LoopState),
          processIoctl nv supportedIoctls cfg st ioctl = (st, true)) ∧
    (∀ e : String, ParseIoctlOutput nv ioctl = .error e →
      ioctl.FdPath ≠ uvmDevPath ∧
      (ioctl.FdPath = ctlDevPath ∨ deviceDevPath.MatchString ioctl.FdPath = true) ∧
      ((linux.IOC_NR (ioctl.Request % 2 ^ 32) = nv.NV_ESC_RM_CONTROL ∧
          ioctl.ArgData.length % 2 ^ 32 ≠ nv.SizeofNVOS54Parameters) ∨
        (linux.IOC_NR (ioctl.Request % 2 ^ 32) = nv.NV_ESC_RM_ALLOC ∧
          ioctl.ArgData.length % 2 ^ 32 ≠ nv.SizeofNVOS21Parameters ∧
          ioctl.ArgData.length % 2 ^ 32 ≠ nv.SizeofNVOS64Parameters))) := by
  constructor
  · intro hp hnr hlen
    have herr : ParseIoctlOutput nv ioctl = .error "unexpected number of bytes" := by
      rw [ParseIoctlOutput_frontend nv ioctl (frontend_of_specFrontendPath _ hp),
        if_pos hnr, if_pos hlen]
    refine ⟨herr, ?_⟩
    intro supportedIoctls cfg st
    unfold processIoctl
    rw [herr]
  · intro e he
    by_cases hu : ioctl.FdPath = uvmDevPath
    · rw [ParseIoctlOutput_uvm nv ioctl hu] at he
      cases he
    · by_cases hp : ioctl.FdPath = ctlDevPath ∨ deviceDevPath.MatchString ioctl.FdPath = true
      · refine ⟨hu, hp, ?_⟩
        rw [ParseIoctlOutput_frontend nv ioctl hp] at he
        split_ifs at he with h1 h2 h3 h4 h5
        · exact Or.inl ⟨h1, h2⟩
        · exact Or.inr ⟨h3, h4, h5⟩
      · rw [ParseIoctlOutput_other nv ioctl hu hp] at he
        cases he


/-- C5: the record on "/dev/nvidiactl" with the RM_CONTROL escape code and an
argument payload of 2^32 + 32 bytes has a length different from
`SizeofNVOS54Parameters` (32), yet the classifier compares `uint32(len(data))`,
which is 32, and succeeds with class Control instead of returning an error; and
the record on "/dev/nvidia7-backup", which is not a frontend path, with the
RM_CONTROL escape code and a 3-byte payload gets the size-mismatch error. -/
theorem control_size_check_wraps :
    (specFrontendPath oversizedControlRecord.FdPath = true ∧
      linux.IOC_NR (oversizedControlRecord.Request % 2 ^ 32)
        = nvgpu.reference.NV_ESC_RM_CONTROL ∧
      oversizedControlRecord.ArgData.length ≠ nvgpu.reference.SizeofNVOS54Parameters ∧
      ∃ parsedIoctl : Ioctl,
        ParseIoctlOutput nvgpu.reference oversizedControlRecord = .ok parsedIoctl ∧
        parsedIoctl.cls = .control) ∧
    (specFrontendPath "/dev/nvidia7-backup" = false ∧
      ParseIoctlOutput nvgpu.reference ⟨"/dev/nvidia7-backup", 0xc020462a, -1, [1, 2, 3], []⟩
        = .error "unexpected number of bytes") := by
  refine ⟨⟨by decide, by decide, ?_, ?_⟩, by decide, rfl⟩
  · rw [oversizedControlRecord_length]
    decide
  · rw [ParseIoctlOutput_frontend _ _ (Or.inl oversizedControlRecord_path),
      if_pos oversizedControlRecord_nr,
      if_neg (not_not.mpr oversizedControlRecord_uint32_length)]
    exact ⟨_, rfl, rfl⟩

/-- C6: for a record on a frontend path whose command number is
NV_ESC_RM_CONTROL and whose argument payload has exactly
`SizeofNVOS54Parameters` bytes, the classifier succeeds with class Control, the
subclass being the little-endian 32-bit value at the offset of `Cmd` and the
status the little-endian 32-bit value at the offset of `Status`. -/
theorem control_record_decodes_Cmd_and_Status (nv : nvgpu.ABI) (ioctl : pb.Ioctl)
    (hpath : specFrontendPath ioctl.FdPath = true)
    (hnr : linux.IOC_NR (ioctl.Request % 2 ^ 32) = nv.NV_ESC_RM_CONTROL)
    (hlen : ioctl.ArgData.length = nv.SizeofNVOS54Parameters) :
    ParseIoctlOutput nv ioctl =
      .ok ⟨ioctl, .control,
            binary.leValue ((ioctl.ArgData.drop nv.NVOS54_Cmd).take 4),
            binary.leValue ((ioctl.ArgData.drop nv.NVOS54_Status).take 4)⟩ := by
  have hmod : ioctl.ArgData.length % 2 ^ 32 = nv.SizeofNVOS54Parameters := by
    rw [hlen]; exact Nat.mod_eq_of_lt nv.sizeofNVOS54_lt
  rw [ParseIoctlOutput_frontend nv ioctl (frontend_of_specFrontendPath _ hpath),
    if_pos hnr, if_neg (not_not.mpr hmod)]
  rfl


/-- C6 at a concrete input: a 32-byte payload on "/dev/nvidia0" whose bytes 8 to
11 hold 0x20800110 and whose bytes 28 to 31 hold 0x56. -/
theorem control_record_decodes_Cmd_and_Status_witness :
    ParseIoctlOutput nvgpu.reference
      ⟨"/dev/nvidia0", 0xc020462a, -1,
        [1, 0, 0, 0, 2, 0, 0, 0, 0x10, 0x01, 0x80, 0x20, 0, 0, 0, 0,
         0, 0, 0, 0, 0, 0, 0, 0, 0, 0, 0, 0, 0x56, 0, 0, 0], []⟩ =
      .ok ⟨⟨"/dev/nvidia0", 0xc020462a, -1,
        [1, 0, 0, 0, 2, 0, 0, 0, 0x10, 0x01, 0x80, 0x20, 0, 0, 0, 0,
         0, 0, 0, 0, 0, 0, 0, 0, 0, 0, 0, 0, 0x56, 0, 0, 0], []⟩,
        .control, 0x20800110, 0x56⟩ :=
  control_record_decodes_Cmd_and_Status nvgpu.reference _ (by decide) (by decide)
    (by decide)

/-- C7: for a record on a frontend path whose command number is
NV_ESC_RM_ALLOC, a payload of exactly `SizeofNVOS21Parameters` bytes is
classified Alloc with the `HClass` and `Status` fields of the default layout,
and a payload of exactly `SizeofNVOS64Parameters` bytes is classified Alloc with
the `HClass` and `Status` fields of the extended layout. -/
theorem alloc_record_decodes_HClass_and_Status (nv : nvgpu.ABI) (ioctl : pb.Ioctl)
    (hpath : specFrontendPath ioctl.FdPath = true)
    (hnr : linux.IOC_NR (ioctl.Request % 2 ^ 32) = nv.NV_ESC_RM_ALLOC) :
    (ioctl.ArgData.length = nv.SizeofNVOS21Parameters →
      ParseIoctlOutput nv ioctl =
        .ok ⟨ioctl, .alloc,
              binary.leValue ((ioctl.ArgData.drop nv.NVOS21_HClass).take 4),
              binary.leValue ((ioctl.ArgData.drop nv.NVOS21_Status).take 4)⟩) ∧
    (ioctl.ArgData.length = nv.SizeofNVOS64Parameters →
      ParseIoctlOutput nv ioctl =
        .ok ⟨ioctl, .alloc,
              binary.leValue ((ioctl.ArgData.drop nv.NVOS64_HClass).take 4),
              binary.leValue ((ioctl.ArgData.drop nv.NVOS64_Status).take 4)⟩) := by
  have hne : linux.IOC_NR (ioctl.Request % 2 ^ 32) ≠ nv.NV_ESC_RM_CONTROL := by
    rw [hnr]; exact fun h => nv.esc_ne h.symm
  have hfront := ParseIoctlOutput_frontend nv ioctl (frontend_of_specFrontendPath _ hpath)
  rw [if_neg hne, if_pos hnr] at hfront
  constructor
  · intro hlen
    have hmod : ioctl.ArgData.length % 2 ^ 32 = nv.SizeofNVOS21Parameters := by
      rw [hlen]; exact Nat.mod_eq_of_lt nv.sizeofNVOS21_lt
    rw [hfront, if_pos hmod]
    rfl
  · intro hlen
    have hmod : ioctl.ArgData.length % 2 ^ 32 = nv.SizeofNVOS64Parameters := by
      rw [hlen]; exact Nat.mod_eq_of_lt nv.sizeofNVOS64_lt
    have hmod' : ioctl.ArgData.length % 2 ^ 32 ≠ nv.SizeofNVOS21Parameters := by
      rw [hmod]; exact fun h => nv.sizeofNVOS21_ne h.symm
    rw [hfront, if_neg hmod', if_pos hmod]
    rfl


/-- C7 at concrete inputs: a 32-byte payload on "/dev/nvidiactl" with class
0xc56f and status 0x22 in the default layout, and a 48-byte payload with class
0x0080 and status 7 (at offset 40) in the extended layout. -/
theorem alloc_record_decodes_HClass_and_Status_witness :
    ParseIoctlOutput nvgpu.reference
      ⟨"/dev/nvidiactl", 0xc020462b, -1,
        [0, 0, 0, 0, 0, 0, 0, 0, 0, 0, 0, 0, 0x6f, 0xc5, 0, 0,
         0, 0, 0, 0, 0, 0, 0, 0, 0, 0, 0, 0, 0x22, 0, 0, 0], []⟩ =
      .ok ⟨⟨"/dev/nvidiactl", 0xc020462b, -1,
        [0, 0, 0, 0, 0, 0, 0, 0, 0, 0, 0, 0, 0x6f, 0xc5, 0, 0,
         0, 0, 0, 0, 0, 0, 0, 0, 0, 0, 0, 0, 0x22, 0, 0, 0], []⟩,
        .alloc, 0xc56f, 0x22⟩ ∧
    ParseIoctlOutput nvgpu.reference
      ⟨"/dev/nvidiactl", 0xc030462b, -1,
        [0, 0, 0, 0, 0, 0, 0, 0, 0, 0, 0, 0, 0x80, 0, 0, 0,
         0, 0, 0, 0, 0, 0, 0, 0, 0, 0, 0, 0, 9, 0, 0, 0,
         0, 0, 0, 0, 0, 0, 0, 0, 7, 0, 0, 0, 0, 0, 0, 0], []⟩ =
      .ok ⟨⟨"/dev/nvidiactl", 0xc030462b, -1,
        [0, 0, 0, 0, 0, 0, 0, 0, 0, 0, 0, 0, 0x80, 0, 0, 0,
         0, 0, 0, 0, 0, 0, 0, 0, 0, 0, 0, 0, 9, 0, 0, 0,
         0, 0, 0, 0, 0, 0, 0, 0, 7, 0, 0, 0, 0, 0, 0, 0], []⟩,
        .alloc, 0x80, 7⟩ :=
  ⟨(alloc_record_decodes_HClass_and_Status nvgpu.reference _ (by decide) (by decide)).1
      (by decide),
    (alloc_record_decodes_HClass_and_Status nvgpu.reference _ (by decide) (by decide)).2
      (by decide)⟩

/-! ## The device pattern has no anchors -/

/-- C8: the path "/dev/nvidia7-backup" is not the UVM path, is not the control
path and is not "/dev/nvidia" followed only by digits, yet the classifier takes
the frontend branch for it: with request code 0xc0104601 it returns class
Frontend and subclass 0x01 instead of class Unknown. -/
theorem unanchored_device_pattern :
    uvmDevPath ≠ "/dev/nvidia7-backup" ∧
    specFrontendPath "/dev/nvidia7-backup" = false ∧
    ParseIoctlOutput nvgpu.reference ⟨"/dev/nvidia7-backup", 0xc0104601, 0, [], []⟩
      = .ok ⟨⟨"/dev/nvidia7-backup", 0xc0104601, 0, [], []⟩, .frontend, 0x01, 0⟩ := by
  refine ⟨by decide, by decide, ?_⟩
  rfl

/-! ## The report -/

theorem sortSlice_sorted (l : List Nat) : (sortSlice l).Sorted (fun a b => a ≤ b) :=
  List.sorted_insertionSort (fun a b => a ≤ b) l

theorem sortSlice_perm (l : List Nat) : (sortSlice l).Perm l :=
  List.perm_insertionSort (fun a b => a ≤ b) l

theorem eq_sortSlice_of_sorted_perm {l l' : List Nat}
    (hs : l'.Sorted (fun a b => a ≤ b)) (hp : l'.Perm l) : l' = sortSlice l :=
  List.eq_of_perm_of_sorted (hp.trans (sortSlice_perm l).symm) hs (sortSlice_sorted l)

theorem sortSlice_congr {l l' : List Nat} (hp : l.Perm l') : sortSlice l = sortSlice l' :=
  eq_sortSlice_of_sorted_perm (sortSlice_sorted l) ((sortSlice_perm l).trans hp)

theorem sortSlice_isEmpty (l : List Nat) : (sortSlice l).isEmpty = l.isEmpty := by
  have h := (sortSlice_perm l).length_eq
  cases l with
  | nil => rfl
  | cons a l =>
    cases hs : sortSlice (a :: l) with
    | nil => rw [hs] at h; simp at h
    | cons b m => rfl

theorem foldl_lines (l : List Nat) : ∀ sb : String,
    l.foldl (fun sb subclass => sb ++ "\t" ++ fmtHex subclass ++ "\n") sb
      = sb ++ concatText (l.map specLine) := by
  induction l with
  | nil => intro sb; simp [concatText]
  | cons a l ih =>
    intro sb
    rw [List.foldl_cons, ih, List.map_cons, concatText]
    simp only [specLine, fmtHex, String.append_assoc]

theorem get_set (r : Results) (c k : ioctlClass) (subs : List Nat) :
    (r.set c subs).get k = if k = c then subs else r.get k := by
  unfold Results.set Results.get
  by_cases h : k = c <;> simp [h]

theorem String_eq_specCategoryName (c : ioctlClass) : c.String = specCategoryName c := by
  cases c <;> rfl

theorem stringStep_fst (sb : String) (r : Results) (cls : ioctlClass) :
    (Results.stringStep (sb, r) cls).1
      = sb ++ sectionOrEmpty cls (sortSlice (r.get cls)) := by
  unfold Results.stringStep sectionOrEmpty
  rw [sortSlice_isEmpty]
  by_cases h0 : (r.get cls).length = 0
  · have he : (r.get cls).isEmpty = true := by
      rw [List.isEmpty_iff]; exact List.length_eq_zero.mp h0
    simp only [h0, if_true, he, String.append_empty]
  · have he : ¬ (r.get cls).isEmpty = true := by
      rw [List.isEmpty_iff]; exact fun h => h0 (List.length_eq_zero.mpr h)
    simp only [h0, if_false, he, Bool.false_eq_true]
    rw [foldl_lines, get_set, if_pos rfl, specSection, String_eq_specCategoryName]
    simp only [String.append_assoc]

theorem stringStep_snd_get (acc : String × Results) (cls k : ioctlClass) (h : k ≠ cls) :
    (Results.stringStep acc cls).2.get k = acc.2.get k := by
  unfold Results.stringStep
  by_cases h0 : (acc.2.get cls).length = 0
  · simp [h0]
  · simp only [h0, if_false]
    rw [get_set, if_neg h]

theorem String_fst (r : Results) :
    r.String.1 = concatText (classRange.map (fun c => sectionOrEmpty c (sortSlice (r.get c)))) := by
  unfold Results.String classRange
  simp only [List.foldl_cons, List.foldl_nil, List.map_cons, List.map_nil, concatText]
  rw [stringStep_fst, stringStep_fst, stringStep_fst, stringStep_fst, stringStep_fst]
  simp only [stringStep_snd_get _ _ _ (by decide : ioctlClass.uvm ≠ ioctlClass.frontend),
    stringStep_snd_get _ _ _ (by decide : ioctlClass.control ≠ ioctlClass.frontend),
    stringStep_snd_get _ _ _ (by decide : ioctlClass.control ≠ ioctlClass.uvm),
    stringStep_snd_get _ _ _ (by decide : ioctlClass.alloc ≠ ioctlClass.frontend),
    stringStep_snd_get _ _ _ (by decide : ioctlClass.alloc ≠ ioctlClass.uvm),
    stringStep_snd_get _ _ _ (by decide : ioctlClass.alloc ≠ ioctlClass.control),
    stringStep_snd_get _ _ _ (by decide : ioctlClass.unknown ≠ ioctlClass.frontend),
    stringStep_snd_get _ _ _ (by decide : ioctlClass.unknown ≠ ioctlClass.uvm),
    stringStep_snd_get _ _ _ (by decide : ioctlClass.unknown ≠ ioctlClass.control),
    stringStep_snd_get _ _ _ (by decide : ioctlClass.unknown ≠ ioctlClass.alloc),
    String.append_assoc, String.empty_append, String.append_empty]

theorem concatText_filter_map (p : ioctlClass → Bool) (f : ioctlClass → String)
    (l : List ioctlClass) :
    concatText ((l.filter p).map f) = concatText (l.map (fun c => if p c then f c else "")) := by
  induction l with
  | nil => rfl
  | cons a l ih =>
    by_cases h : p a = true
    · simp only [List.filter_cons, h, if_true, List.map_cons, concatText, ih]
    · simp only [List.filter_cons, h, if_false, List.map_cons, concatText, ih,
        String.empty_append, Bool.false_eq_true]

theorem specRender_eq (ordered : ioctlClass → List Nat) :
    specRender ordered = concatText (classRange.map (fun c => sectionOrEmpty c (ordered c))) := by
  unfold specRender
  rw [concatText_filter_map]
  have h : (fun c => if (!(ordered c).isEmpty) = true then specSection c (ordered c) else "")
      = fun c => sectionOrEmpty c (ordered c) := by
    funext c
    unfold sectionOrEmpty
    cases (ordered c).isEmpty <;> rfl
  rw [h]
  rfl

theorem mergeKey_get_perm (o r : Results) (cls k : ioctlClass) :
    ((Results.mergeKey o r cls).get k).Perm
      (if k = cls then r.get k ++ o.get k else r.get k) := by
  unfold Results.mergeKey
  by_cases h : k = cls
  · subst h
    rw [if_pos rfl]
    cases ho : o.unsupported k with
    | none =>
      have : o.get k = [] := by unfold Results.get; rw [ho]; rfl
      rw [this, List.append_nil]
    | some subs =>
      have : o.get k = subs := by unfold Results.get; rw [ho]; rfl
      simp only [this, get_set, if_true]
      exact sortSlice_perm _
  · rw [if_neg h]
    cases ho : o.unsupported cls with
    | none => exact List.Perm.refl _
    | some subs => simp only [get_set, if_neg h]; exact List.Perm.refl _

theorem mergeKey_get_of_ne (o r : Results) (cls k : ioctlClass) (h : k ≠ cls) :
    (Results.mergeKey o r cls).get k = r.get k := by
  unfold Results.mergeKey
  cases ho : o.unsupported cls with
  | none => rfl
  | some subs => simp only [get_set, if_neg h]

theorem foldl_mergeKey_get_of_not_mem (o : Results) (k : ioctlClass) :
    ∀ (l : List ioctlClass) (r : Results), k ∉ l →
      (l.foldl (Results.mergeKey o) r).get k = r.get k
  | [], _, _ => rfl
  | c :: l, r, h => by
    rw [List.foldl_cons, foldl_mergeKey_get_of_not_mem o k l _ (fun hm => h (List.mem_cons_of_mem _ hm))]
    exact mergeKey_get_of_ne o r c k (fun e => h (e ▸ List.mem_cons_self _ _))

theorem foldl_mergeKey_get_perm (o : Results) (k : ioctlClass) :
    ∀ (l : List ioctlClass) (r : Results), l.Nodup → k ∈ l →
      ((l.foldl (Results.mergeKey o) r).get k).Perm (r.get k ++ o.get k)
  | [], _, _, h => absurd h (List.not_mem_nil _)
  | c :: l, r, hnd, h => by
    rw [List.foldl_cons]
    rw [List.nodup_cons] at hnd
    by_cases hk : k = c
    · subst hk
      rw [foldl_mergeKey_get_of_not_mem o k l _ hnd.1]
      have := mergeKey_get_perm o r k k
      rwa [if_pos rfl] at this
    · have hm : k ∈ l := by
        rcases List.mem_cons.mp h with h | h
        · exact absurd h hk
        · exact h
      have := foldl_mergeKey_get_perm o k l (Results.mergeKey o r c) hnd.2 hm
      rwa [mergeKey_get_of_ne o r c k hk] at this

theorem Merge_get_perm (r o : Results) (k : ioctlClass) :
    ((r.Merge (some o)).get k).Perm (r.get k ++ o.get k) := by
  unfold Results.Merge
  exact foldl_mergeKey_get_perm o k classRange r (by decide) (by cases k <;> decide)

theorem String_congr (r r' : Results) (h : ∀ c, (r.get c).Perm (r'.get c)) :
    r.String.1 = r'.String.1 := by
  rw [String_fst, String_fst]
  have e : ∀ c, sortSlice (r.get c) = sortSlice (r'.get c) := fun c => sortSlice_congr (h c)
  simp only [e]

/-- C9: the text of the report after merging does not depend on the order or
the pairing of the merges: merging B into A and A into B give the same text,
merging C into (A merged with B) and (B merged with C) into A give the same
text, and two results whose sequences are permutations of each other in every
category have the same text. -/
theorem Merge_String_comm_assoc (A B C : Results) :
    (A.Merge (some B)).String.1 = (B.Merge (some A)).String.1 ∧
    ((A.Merge (some B)).Merge (some C)).String.1
      = (A.Merge (some (B.Merge (some C)))).String.1 ∧
    (∀ r r' : Results, (∀ c, (r.get c).Perm (r'.get c)) → r.String.1 = r'.String.1) := by
  refine ⟨String_congr _ _ ?_, String_congr _ _ ?_, String_congr⟩
  · intro c
    exact (Merge_get_perm A B c).trans
      (List.perm_append_comm.trans (Merge_get_perm B A c).symm)
  · intro c
    have h1 := Merge_get_perm (A.Merge (some B)) C c
    have h2 := Merge_get_perm A B c
    have h3 := Merge_get_perm A (B.Merge (some C)) c
    have h4 := Merge_get_perm B C c
    refine h1.trans (((h2.append_right _).trans ?_).trans h3.symm)
    rw [List.append_assoc]
    exact (h4.symm.append_left _)

/-- C9 at concrete inputs built from `NewResults` by `AddUnsupportedIoctl`. -/
theorem Merge_String_comm_assoc_witness :
    (sampleA.Merge (some sampleB)).String.1 = (sampleB.Merge (some sampleA)).String.1 ∧
    ((sampleA.Merge (some sampleB)).Merge (some sampleC)).String.1
      = (sampleA.Merge (some (sampleB.Merge (some sampleC)))).String.1 ∧
    sampleA.String.1 = sampleA'.String.1 ∧
    (sampleA.Merge (some sampleB)).String.1
      = "UVM:\n\t0x21\n\t0x21\n\t0x4b\nControl:\n\t0x20800110\n" :=
  ⟨(Merge_String_comm_assoc sampleA sampleB sampleC).1,
    (Merge_String_comm_assoc sampleA sampleB sampleC).2.1,
    (Merge_String_comm_assoc sampleA sampleB sampleC).2.2 sampleA sampleA'
      (by intro c; cases c <;> decide),
    by decide⟩

/-- C10: the text returned by `String` is the report as the specification
words it: over the categories in the order Frontend, Uvm, Control, Alloc,
Unknown, those without a value skipped, the name of the category (Frontend,
UVM, Control, Alloc, Unknown), a colon and a newline, then for each recorded
value in ascending order with duplicates kept (any arrangement `ordered` that
is sorted and is a permutation of the recorded sequence) a tab, the value in
0x-prefixed lowercase hexadecimal and a newline. -/
theorem String_eq_specRender (r : Results) (ordered : ioctlClass → List Nat)
    (hsorted : ∀ c, (ordered c).Sorted (fun a b => a ≤ b))
    (hperm : ∀ c, (ordered c).Perm (r.get c)) :
    r.String.1 = specRender ordered := by
  rw [String_fst, specRender_eq]
  have h : ∀ c, ordered c = sortSlice (r.get c) :=
    fun c => eq_sortSlice_of_sorted_perm (hsorted c) (hperm c)
  simp only [h]

/-- C10 at a concrete input with a value in every category (and a duplicate
under UVM): the five headings and the lines appear as literal text. -/
theorem String_eq_specRender_witness :
    sampleAll.String.1 = specRender sampleAllOrdered ∧
    sampleAll.String.1 =
      "Frontend:\n\t0xd6\nUVM:\n\t0x21\n\t0x21\n\t0x4b\nControl:\n\t0x20800110\n" ++
      "Alloc:\n\t0x80\n\t0xc56f\nUnknown:\n\t0x1\n" :=
  ⟨String_eq_specRender sampleAll sampleAllOrdered (by intro c; cases c <;> decide)
      (by intro c; cases c <;> decide),
    by decide⟩

/-! ## Merge, key by key -/

theorem mergeKey_unsupported_of_ne (o r : Results) (cls k : ioctlClass) (h : k ≠ cls) :
    (Results.mergeKey o r cls).unsupported k = r.unsupported k := by
  unfold Results.mergeKey
  cases ho : o.unsupported cls with
  | none => rfl
  | some subs => simp only [Results.set, if_neg h]

theorem mergeKey_unsupported_self (o r : Results) (k : ioctlClass) :
    (Results.mergeKey o r k).unsupported k =
      match o.unsupported k with
      | none => r.unsupported k
      | some subs => some (sortSlice (r.get k ++ subs)) := by
  unfold Results.mergeKey
  cases ho : o.unsupported k with
  | none => rfl
  | some subs => simp only [Results.set, if_true]

theorem foldl_mergeKey_unsupported_of_not_mem (o : Results) (k : ioctlClass) :
    ∀ (l : List ioctlClass) (r : Results), k ∉ l →
      (l.foldl (Results.mergeKey o) r).unsupported k = r.unsupported k
  | [], _, _ => rfl
  | c :: l, r, h => by
    rw [List.foldl_cons,
      foldl_mergeKey_unsupported_of_not_mem o k l _ (fun hm => h (List.mem_cons_of_mem _ hm))]
    exact mergeKey_unsupported_of_ne o r c k (fun e => h (e ▸ List.mem_cons_self _ _))

theorem foldl_mergeKey_unsupported (o : Results) (k : ioctlClass) :
    ∀ (l : List ioctlClass) (r : Results), l.Nodup → k ∈ l →
      (l.foldl (Results.mergeKey o) r).unsupported k =
        match o.unsupported k with
        | none => r.unsupported k
        | some subs => some (sortSlice (r.get k ++ subs))
  | [], _, _, h => absurd h (List.not_mem_nil _)
  | c :: l, r, hnd, h => by
    rw [List.foldl_cons]
    rw [List.nodup_cons] at hnd
    by_cases hk : k = c
    · subst hk
      rw [foldl_mergeKey_unsupported_of_not_mem o k l _ hnd.1]
      exact mergeKey_unsupported_self o r k
    · have hm : k ∈ l := by
        rcases List.mem_cons.mp h with h | h
        · exact absurd h hk
        · exact h
      rw [foldl_mergeKey_unsupported o k l (Results.mergeKey o r c) hnd.2 hm,
        mergeKey_unsupported_of_ne o r c k hk]
      have hg : (Results.mergeKey o r c).get k = r.get k := mergeKey_get_of_ne o r c k hk
      rw [hg]

theorem Merge_unsupported (r o : Results) (k : ioctlClass) :
    (r.Merge (some o)).unsupported k =
      match o.unsupported k with
      | none => r.unsupported k
      | some subs => some (sortSlice (r.get k ++ subs)) := by
  unfold Results.Merge
  exact foldl_mergeKey_unsupported o k classRange r (by decide) (by cases k <;> decide)

theorem Reachable.nonempty {r : Results} (h : Reachable r) :
    ∀ (c : ioctlClass) (subs : List Nat), r.unsupported c = some subs → subs ≠ [] := by
  induction h with
  | new => intro c subs h; cases h
  | add r ioctl _ ih =>
    intro c subs h
    unfold Results.AddUnsupportedIoctl Results.set at h
    simp only at h
    by_cases hc : c = ioctl.cls
    · rw [if_pos hc] at h
      cases h
      simp
    · rw [if_neg hc] at h
      exact ih c subs h
  | merge r o _ _ ihr iho =>
    intro c subs h
    rw [Merge_unsupported] at h
    cases ho : o.unsupported c with
    | none => rw [ho] at h; exact ihr c subs h
    | some s =>
      rw [ho] at h
      cases h
      intro he
      have hp := (sortSlice_perm (r.get c ++ s)).length_eq
      rw [he] at hp
      have hs : s ≠ [] := iho c s ho
      rw [List.length_nil, List.length_append] at hp
      exact hs (List.length_eq_zero.mp (by omega))
  | mergeNil r _ ih => exact ih

theorem HasUnsupportedIoctl_iff_isSome (r : Results) :
    r.HasUnsupportedIoctl = true ↔ ∃ c, (r.unsupported c).isSome = true := by
  unfold Results.HasUnsupportedIoctl Results.len
  rw [decide_eq_true_iff, gt_iff_lt, List.length_pos_iff_exists_mem]
  constructor
  · rintro ⟨c, hc⟩
    exact ⟨c, (List.mem_filter.mp hc).2⟩
  · rintro ⟨c, hc⟩
    exact ⟨c, List.mem_filter.mpr ⟨by cases c <;> decide, hc⟩⟩

/-- C12: in a result built from `NewResults` by `AddUnsupportedIoctl` and
`Merge`, every key of the map has a non-empty sequence, so
`HasUnsupportedIoctl` is true exactly when some category has a non-empty
sequence. -/
theorem HasUnsupportedIoctl_iff_nonempty (r : Results) (h : Reachable r) :
    (∀ (c : ioctlClass) (subs : List Nat), r.unsupported c = some subs → subs ≠ []) ∧
    (r.HasUnsupportedIoctl = true ↔ ∃ c, r.get c ≠ []) := by
  have hne := h.nonempty
  refine ⟨hne, ?_⟩
  rw [HasUnsupportedIoctl_iff_isSome]
  constructor
  · rintro ⟨c, hc⟩
    refine ⟨c, ?_⟩
    cases hu : r.unsupported c with
    | none => rw [hu] at hc; cases hc
    | some subs =>
      unfold Results.get
      rw [hu]
      exact hne c subs hu
  · rintro ⟨c, hc⟩
    refine ⟨c, ?_⟩
    cases hu : r.unsupported c with
    | none =>
      unfold Results.get at hc
      rw [hu] at hc
      exact absurd rfl hc
    | some subs => rfl

/-- C12 at a concrete input: `sampleB` merged into `sampleA`. -/
theorem HasUnsupportedIoctl_iff_nonempty_witness :
    (∀ (c : ioctlClass) (subs : List Nat),
      (sampleA.Merge (some sampleB)).unsupported c = some subs → subs ≠ []) ∧
    ((sampleA.Merge (some sampleB)).HasUnsupportedIoctl = true ↔
      ∃ c, (sampleA.Merge (some sampleB)).get c ≠ []) :=
  HasUnsupportedIoctl_iff_nonempty (sampleA.Merge (some sampleB))
    (Reachable.merge _ _
      (Reachable.add _ _ (Reachable.add _ _ Reachable.new))
      (Reachable.add _ _ (Reachable.add _ _ Reachable.new)))

/-! ## The empty stream -/

/-- C13: on the empty stream, for every dump and abort configuration,
`ParseIoctls` returns a result for which `HasUnsupportedIoctl` is false and
`String` is the empty text (and nothing is dumped). -/
theorem ParseIoctls_empty_stream (nv : nvgpu.ABI) (supportedIoctls : SupportedIoctls) (cfg : Config)
    (unmarshal : List UInt8 → Option pb.Ioctl) :
    ∃ st : LoopState,
      ParseIoctls nv supportedIoctls cfg unmarshal [] = some (.returned st) ∧
      st.res.HasUnsupportedIoctl = false ∧ st.res.String.1 = "" ∧ st.dump = [] :=
  ⟨⟨NewResults, []⟩, rfl, by decide, by decide, rfl⟩

/-! ## Little-endian fields -/

theorem toNat_ofNat_mod (n : Nat) : (UInt8.ofNat (n % 256)).toNat = n % 256 := by
  show (n % 256) % 256 = n % 256
  exact Nat.mod_mod _ _

theorem toNat_lt_256 (b : UInt8) : b.toNat < 256 := b.val.isLt

theorem leBytes_length : ∀ (w n : Nat), (binary.leBytes w n).length = w
  | 0, _ => rfl
  | w + 1, n => by rw [binary.leBytes, List.length_cons, leBytes_length w]

theorem leValue_leBytes : ∀ (w n : Nat), binary.leValue (binary.leBytes w n) = n % 256 ^ w
  | 0, n => by simp [binary.leBytes, binary.leValue, Nat.mod_one]
  | w + 1, n => by
    rw [binary.leBytes, binary.leValue, leValue_leBytes w, toNat_ofNat_mod, pow_succ,
      Nat.mul_comm (256 ^ w) 256, Nat.mod_mul]

theorem leValue_lt : ∀ bs : List UInt8, binary.leValue bs < 256 ^ bs.length
  | [] => by simp [binary.leValue]
  | b :: bs => by
    have h1 := toNat_lt_256 b
    have h2 := leValue_lt bs
    rw [binary.leValue, List.length_cons, pow_succ]
    omega

theorem leValue_leBytes_of_lt (w n : Nat) (h : n < 256 ^ w) :
    binary.leValue (binary.leBytes w n) = n := by
  rw [leValue_leBytes, Nat.mod_eq_of_lt h]

theorem Uint32_lt (src : List UInt8) : binary.Uint32 src < 2 ^ 32 := by
  unfold binary.Uint32
  have h := leValue_lt (src.take 4)
  have h2 : (src.take 4).length ≤ 4 := by
    rw [List.length_take]; exact Nat.min_le_left _ _
  calc binary.leValue (src.take 4) < 256 ^ (src.take 4).length := h
    _ ≤ 256 ^ 4 := Nat.pow_le_pow_right (by norm_num) h2
    _ = 2 ^ 32 := by norm_num

/-! ## The loop on framed records -/

variable (nv : nvgpu.ABI) (supportedIoctls : SupportedIoctls) (cfg : Config)
  (unmarshal : List UInt8 → Option pb.Ioctl)

theorem parseLoop_short (fuel : Nat) (r : List UInt8) (st : LoopState) (h : r.length < 8) :
    parseLoop nv supportedIoctls cfg unmarshal (fuel + 1) r st = some (.returned st) := by
  rw [parseLoop, if_pos h]

theorem frame_append_length (payload rest : List UInt8) :
    (frame payload ++ rest).length = 8 + payload.length + rest.length := by
  unfold frame
  rw [List.length_append, List.length_append, leBytes_length]

theorem frame_append_take (payload rest : List UInt8) :
    (frame payload ++ rest).take 8 = binary.leBytes 8 payload.length := by
  unfold frame
  rw [List.append_assoc, List.take_left' (leBytes_length 8 _)]

theorem frame_append_drop (payload rest : List UInt8) :
    (frame payload ++ rest).drop 8 = payload ++ rest := by
  unfold frame
  rw [List.append_assoc, List.drop_left' (leBytes_length 8 _)]

theorem parseLoop_frame_step (fuel : Nat) (payload rest : List UInt8) (st : LoopState)
    (hlen : payload.length < 2 ^ 64) (halloc : payload.length ≤ cfg.maxAlloc) :
    parseLoop nv supportedIoctls cfg unmarshal (fuel + 1) (frame payload ++ rest) st =
      match unmarshal payload with
      | none => some (.returned st)
      | some ioctlPB =>
        match processIoctl nv supportedIoctls cfg st ioctlPB with
        | (st, false) => some (.exited st)
        | (st, true) => parseLoop nv supportedIoctls cfg unmarshal fuel rest st := by
  have h8 : ¬ (frame payload ++ rest).length < 8 := by
    rw [frame_append_length]; omega
  have hsize : binary.leValue ((frame payload ++ rest).take 8) = payload.length := by
    rw [frame_append_take, leValue_leBytes_of_lt 8 _ (by norm_num; exact hlen)]
  rw [parseLoop, if_neg h8]
  simp only [hsize, frame_append_drop]
  rw [if_neg (Nat.not_lt.mpr halloc), if_neg (by rw [List.length_append]; omega),
    List.take_left' rfl, List.drop_left' rfl]

/-- One iteration of the loop on a complete frame whose record is handled and
followed by the next iteration. -/
theorem parseLoop_frame_continue (fuel : Nat) (payload rest : List UInt8)
    (st st' : LoopState) (ioctlPB : pb.Ioctl)
    (hlen : payload.length < 2 ^ 64) (halloc : payload.length ≤ cfg.maxAlloc)
    (hu : unmarshal payload = some ioctlPB)
    (hp : processIoctl nv supportedIoctls cfg st ioctlPB = (st', true)) :
    parseLoop nv supportedIoctls cfg unmarshal (fuel + 1) (frame payload ++ rest) st =
      parseLoop nv supportedIoctls cfg unmarshal fuel rest st' := by
  rw [parseLoop_frame_step nv supportedIoctls cfg unmarshal fuel payload rest st hlen halloc]
  simp only [hu, hp]

/-- One iteration of the loop on a complete frame whose record makes the
process exit. -/
theorem parseLoop_frame_exit (fuel : Nat) (payload rest : List UInt8)
    (st st' : LoopState) (ioctlPB : pb.Ioctl)
    (hlen : payload.length < 2 ^ 64) (halloc : payload.length ≤ cfg.maxAlloc)
    (hu : unmarshal payload = some ioctlPB)
    (hp : processIoctl nv supportedIoctls cfg st ioctlPB = (st', false)) :
    parseLoop nv supportedIoctls cfg unmarshal (fuel + 1) (frame payload ++ rest) st =
      some (.exited st') := by
  rw [parseLoop_frame_step nv supportedIoctls cfg unmarshal fuel payload rest st hlen halloc]
  simp only [hu, hp]

/-- One iteration of the loop on a complete frame whose payload does not
decode. -/
theorem parseLoop_frame_undecodable (fuel : Nat) (payload rest : List UInt8)
    (st : LoopState)
    (hlen : payload.length < 2 ^ 64) (halloc : payload.length ≤ cfg.maxAlloc)
    (hu : unmarshal payload = none) :
    parseLoop nv supportedIoctls cfg unmarshal (fuel + 1) (frame payload ++ rest) st =
      some (.returned st) := by
  rw [parseLoop_frame_step nv supportedIoctls cfg unmarshal fuel payload rest st hlen halloc]
  simp only [hu]

theorem processIoctl_continues (st : LoopState) (ioctlPB : pb.Ioctl)
    (hoff : cfg.crashOnUnsupportedIoctl = false) :
    (processIoctl nv supportedIoctls cfg st ioctlPB).2 = true := by
  unfold processIoctl
  cases ParseIoctlOutput nv ioctlPB with
  | error e => rfl
  | ok parsedIoctl =>
    simp only [hoff, Bool.false_eq_true, if_false]
    split_ifs <;> rfl

/-! ## Successful classifications -/

theorem IOC_NR_lt (nr : Nat) : linux.IOC_NR nr < 256 := by
  rw [IOC_NR_eq_mod]
  exact Nat.mod_lt _ (by norm_num)

/-- The five ways in which the classifier succeeds. -/
theorem ParseIoctlOutput_ok_cases (nv : nvgpu.ABI) (ioctl : pb.Ioctl) (p : Ioctl)
    (h : ParseIoctlOutput nv ioctl = .ok p) :
    (ioctl.FdPath = uvmDevPath ∧ p = ⟨ioctl, .uvm, ioctl.Request % 2 ^ 32, 0⟩) ∨
    ((ioctl.FdPath = ctlDevPath ∨ deviceDevPath.MatchString ioctl.FdPath = true) ∧
      linux.IOC_NR (ioctl.Request % 2 ^ 32) = nv.NV_ESC_RM_CONTROL ∧
      p = ⟨ioctl, .control, (nv.UnmarshalNVOS54 ioctl.ArgData).Cmd,
            (nv.UnmarshalNVOS54 ioctl.ArgData).Status⟩) ∨
    ((ioctl.FdPath = ctlDevPath ∨ deviceDevPath.MatchString ioctl.FdPath = true) ∧
      linux.IOC_NR (ioctl.Request % 2 ^ 32) = nv.NV_ESC_RM_ALLOC ∧
      ∃ isNVOS64 : Bool,
        p = ⟨ioctl, .alloc, (nv.UnmarshalRmAlloc isNVOS64 ioctl.ArgData).HClass,
              (nv.UnmarshalRmAlloc isNVOS64 ioctl.ArgData).Status⟩) ∨
    ((ioctl.FdPath = ctlDevPath ∨ deviceDevPath.MatchString ioctl.FdPath = true) ∧
      linux.IOC_NR (ioctl.Request % 2 ^ 32) ≠ nv.NV_ESC_RM_CONTROL ∧
      linux.IOC_NR (ioctl.Request % 2 ^ 32) ≠ nv.NV_ESC_RM_ALLOC ∧
      p = ⟨ioctl, .frontend, linux.IOC_NR (ioctl.Request % 2 ^ 32), 0⟩) ∨
    (ioctl.FdPath ≠ uvmDevPath ∧
      ¬ (ioctl.FdPath = ctlDevPath ∨ deviceDevPath.MatchString ioctl.FdPath = true) ∧
      p = ⟨ioctl, .unknown, linux.IOC_NR (ioctl.Request % 2 ^ 32), 0⟩) := by
  by_cases hu : ioctl.FdPath = uvmDevPath
  · rw [ParseIoctlOutput_uvm nv ioctl hu] at h
    cases h
    exact Or.inl ⟨hu, rfl⟩
  · by_cases hp : ioctl.FdPath = ctlDevPath ∨ deviceDevPath.MatchString ioctl.FdPath = true
    · rw [ParseIoctlOutput_frontend nv ioctl hp] at h
      split_ifs at h with h1 h2 h3 h4 h5
      · cases h
        exact Or.inr (Or.inl ⟨hp, h1, rfl⟩)
      · cases h
        exact Or.inr (Or.inr (Or.inl ⟨hp, h3, false, rfl⟩))
      · cases h
        exact Or.inr (Or.inr (Or.inl ⟨hp, h3, true, rfl⟩))
      · cases h
        exact Or.inr (Or.inr (Or.inr (Or.inl ⟨hp, h1, h3, rfl⟩)))
    · rw [ParseIoctlOutput_other nv ioctl hu hp] at h
      cases h
      exact Or.inr (Or.inr (Or.inr (Or.inr ⟨hu, hp, rfl⟩)))

theorem UnmarshalRmAlloc_HClass_lt (nv : nvgpu.ABI) (b : Bool) (src : List UInt8) :
    (nv.UnmarshalRmAlloc b src).HClass < 2 ^ 32 := by
  unfold nvgpu.ABI.UnmarshalRmAlloc
  cases b <;> exact Uint32_lt _

theorem ParseIoctlOutput_pb (nv : nvgpu.ABI) (ioctl : pb.Ioctl) (p : Ioctl)
    (h : ParseIoctlOutput nv ioctl = .ok p) : p.pb = ioctl := by
  rcases ParseIoctlOutput_ok_cases nv ioctl p h with
    ⟨_, e⟩ | ⟨_, _, e⟩ | ⟨_, _, _, e⟩ | ⟨_, _, _, e⟩ | ⟨_, _, e⟩ <;> rw [e]

theorem ParseIoctlOutput_subclass_lt (nv : nvgpu.ABI) (ioctl : pb.Ioctl) (p : Ioctl)
    (h : ParseIoctlOutput nv ioctl = .ok p) : p.subclass < 2 ^ 32 := by
  rcases ParseIoctlOutput_ok_cases nv ioctl p h with
    ⟨_, e⟩ | ⟨_, _, e⟩ | ⟨_, _, _, e⟩ | ⟨_, _, _, e⟩ | ⟨_, _, e⟩ <;> rw [e]
  · exact Nat.mod_lt _ (by norm_num)
  · exact Uint32_lt _
  · exact UnmarshalRmAlloc_HClass_lt nv _ _
  · exact lt_trans (IOC_NR_lt _) (by norm_num)
  · exact lt_trans (IOC_NR_lt _) (by norm_num)

/-- What holds of every successful classification. -/
theorem ParseIoctlOutput_invariants (nv : nvgpu.ABI) (ioctl : pb.Ioctl) (p : Ioctl)
    (h : ParseIoctlOutput nv ioctl = .ok p) :
    p.cls.toNat < _numClasses ∧
    (p.cls = .control →
      (ioctl.FdPath = ctlDevPath ∨ deviceDevPath.MatchString ioctl.FdPath = true) ∧
      linux.IOC_NR (ioctl.Request % 2 ^ 32) = nv.NV_ESC_RM_CONTROL) ∧
    (p.cls = .alloc →
      (ioctl.FdPath = ctlDevPath ∨ deviceDevPath.MatchString ioctl.FdPath = true) ∧
      linux.IOC_NR (ioctl.Request % 2 ^ 32) = nv.NV_ESC_RM_ALLOC) ∧
    (p.cls = .frontend →
      p.subclass ≠ nv.NV_ESC_RM_CONTROL ∧ p.subclass ≠ nv.NV_ESC_RM_ALLOC) ∧
    (p.cls = .frontend ∨ p.cls = .unknown → p.subclass < 256) ∧
    (p.cls = .frontend ∨ p.cls = .uvm ∨ p.cls = .unknown → p.status = 0) := by
  refine ⟨by cases p.cls <;> decide, ?_⟩
  rcases ParseIoctlOutput_ok_cases nv ioctl p h with
    ⟨_, e⟩ | ⟨hp, hn, e⟩ | ⟨hp, hn, _, e⟩ | ⟨hp, h1, h2, e⟩ | ⟨_, _, e⟩ <;> subst e
  · refine ⟨?_, ?_, ?_, ?_, ?_⟩ <;> simp
  · refine ⟨fun _ => ⟨hp, hn⟩, ?_, ?_, ?_, ?_⟩ <;> simp
  · refine ⟨?_, fun _ => ⟨hp, hn⟩, ?_, ?_, ?_⟩ <;> simp
  · refine ⟨?_, ?_, fun _ => ⟨h1, h2⟩, fun _ => IOC_NR_lt _, ?_⟩ <;> simp
  · refine ⟨?_, ?_, ?_, fun _ => IOC_NR_lt _, ?_⟩ <;> simp

/-! ## The loop body -/

theorem processAll_cons (st : LoopState) (ioctl : pb.Ioctl) (ioctls : List pb.Ioctl) :
    processAll nv supportedIoctls cfg st (ioctl :: ioctls) =
      processAll nv supportedIoctls cfg (processIoctl nv supportedIoctls cfg st ioctl).1
        ioctls := rfl

theorem processIoctl_dump (nv : nvgpu.ABI) (supportedIoctls : SupportedIoctls)
    (cfg : Config) (st : LoopState) (ioctl : pb.Ioctl) (p : Ioctl)
    (h : ParseIoctlOutput nv ioctl = .ok p) :
    (processIoctl nv supportedIoctls cfg st ioctl).1.dump =
      if cfg.dumpFile = true ∧ ioctl.Ret = -1 ∧ (p.cls = .control ∨ p.cls = .alloc) then
        st.dump ++ dumpEntry p
      else st.dump := by
  have hpb := ParseIoctlOutput_pb nv ioctl p h
  unfold processIoctl
  rw [h]
  simp only [hpb]
  split_ifs <;> rfl

theorem processIoctl_res (nv : nvgpu.ABI) (supportedIoctls : SupportedIoctls)
    (cfg : Config) (st : LoopState) (ioctl : pb.Ioctl) (p : Ioctl)
    (h : ParseIoctlOutput nv ioctl = .ok p) :
    (processIoctl nv supportedIoctls cfg st ioctl).1.res =
      if p.IsSupported nv supportedIoctls = false then st.res.AddUnsupportedIoctl p
      else st.res := by
  unfold processIoctl
  rw [h]
  simp only
  split_ifs <;> rfl

theorem processIoctl_error (nv : nvgpu.ABI) (supportedIoctls : SupportedIoctls)
    (cfg : Config) (st : LoopState) (ioctl : pb.Ioctl) (e : String)
    (h : ParseIoctlOutput nv ioctl = .error e) :
    processIoctl nv supportedIoctls cfg st ioctl = (st, true) := by
  unfold processIoctl
  rw [h]

theorem dumpEntry_length (p : Ioctl) : (dumpEntry p).length = 24 + (dumpData p).length := by
  unfold dumpEntry
  simp only [List.length_append, leBytes_length]

theorem AddUnsupportedIoctl_unsupported (r : Results) (p : Ioctl) (c : ioctlClass) :
    (r.AddUnsupportedIoctl p).unsupported c =
      if c = p.cls then some (r.get c ++ [p.subclass]) else r.unsupported c := by
  unfold Results.AddUnsupportedIoctl Results.set
  by_cases h : c = p.cls
  · subst h; simp
  · simp [h]

/-- The entry of the class `c` after the records `ioctls` have gone through the
loop body. -/
theorem processAll_unsupported (c : ioctlClass) (ioctls : List pb.Ioctl) :
    ∀ st : LoopState,
      (processAll nv supportedIoctls cfg st ioctls).res.unsupported c =
        if specUnsupported nv supportedIoctls c ioctls = [] then st.res.unsupported c
        else some (st.res.get c ++ specUnsupported nv supportedIoctls c ioctls) := by
  induction ioctls with
  | nil => intro st; rfl
  | cons ioctl ioctls ih =>
    intro st
    rw [processAll_cons, ih]
    cases hc : ParseIoctlOutput nv ioctl with
    | error e =>
      have hs : specUnsupported nv supportedIoctls c (ioctl :: ioctls)
          = specUnsupported nv supportedIoctls c ioctls := by
        unfold specUnsupported
        rw [List.filterMap_cons, hc]
      rw [hs, processIoctl_error nv supportedIoctls cfg st ioctl e hc]
    | ok p =>
      have hres := processIoctl_res nv supportedIoctls cfg st ioctl p hc
      by_cases hadd : p.cls = c ∧ p.IsSupported nv supportedIoctls = false
      · have hs : specUnsupported nv supportedIoctls c (ioctl :: ioctls)
            = p.subclass :: specUnsupported nv supportedIoctls c ioctls := by
          unfold specUnsupported
          rw [List.filterMap_cons, hc]
          simp only [hadd, and_self, if_true]
        rw [hs, hres, if_pos hadd.2]
        have hu := AddUnsupportedIoctl_unsupported st.res p c
        rw [if_pos hadd.1.symm] at hu
        have hg : (st.res.AddUnsupportedIoctl p).get c = st.res.get c ++ [p.subclass] := by
          unfold Results.get at hu ⊢
          rw [hu]
          rfl
        rw [hu, hg, if_neg (List.cons_ne_nil _ _)]
        by_cases he : specUnsupported nv supportedIoctls c ioctls = []
        · rw [if_pos he, he]
        · rw [if_neg he, List.append_assoc]
          rfl
      · have hs : specUnsupported nv supportedIoctls c (ioctl :: ioctls)
            = specUnsupported nv supportedIoctls c ioctls := by
          unfold specUnsupported
          rw [List.filterMap_cons, hc]
          simp only [hadd, if_false]
        rw [hs, hres]
        by_cases hsup : p.IsSupported nv supportedIoctls = false
        · have hne : c ≠ p.cls := fun e => hadd ⟨e.symm, hsup⟩
          have hu := AddUnsupportedIoctl_unsupported st.res p c
          rw [if_neg hne] at hu
          have hg : (st.res.AddUnsupportedIoctl p).get c = st.res.get c := by
            unfold Results.get
            rw [hu]
          rw [if_pos hsup, hu, hg]
        · rw [if_neg hsup]

theorem IsSupported_Init_of_ne_control (i : Ioctl) (h : i.cls ≠ .control) :
    i.IsSupported nv Init = false := by
  unfold Ioctl.IsSupported
  rw [if_neg (fun hc => h hc.1), if_neg (fun hc => h hc.1)]
  split_ifs
  · rfl
  · simp [Init]

theorem IsSupported_of_legacy (i : Ioctl) (hc : i.cls = .control)
    (hm : i.subclass &&& nv.RM_GSS_LEGACY_MASK ≠ 0) :
    i.IsSupported nv supportedIoctls = true := by
  unfold Ioctl.IsSupported
  rw [if_pos ⟨hc, hm⟩]

theorem ParseIoctlOutput_control (ioctl : pb.Ioctl)
    (hpath : specFrontendPath ioctl.FdPath = true)
    (hnr : linux.IOC_NR (ioctl.Request % 2 ^ 32) = nv.NV_ESC_RM_CONTROL)
    (hlen : ioctl.ArgData.length = nv.SizeofNVOS54Parameters) :
    ParseIoctlOutput nv ioctl =
      .ok ⟨ioctl, .control,
            binary.leValue ((ioctl.ArgData.drop nv.NVOS54_Cmd).take 4),
            binary.leValue ((ioctl.ArgData.drop nv.NVOS54_Status).take 4)⟩ := by
  have hmod : ioctl.ArgData.length % 2 ^ 32 = nv.SizeofNVOS54Parameters := by
    rw [hlen]; exact Nat.mod_eq_of_lt nv.sizeofNVOS54_lt
  rw [ParseIoctlOutput_frontend nv ioctl (frontend_of_specFrontendPath _ hpath),
    if_pos hnr, if_neg (not_not.mpr hmod)]
  rfl

theorem maxAlloc_lt_pow64 : cfg.maxAlloc < 256 ^ 8 :=
  lt_trans cfg.maxAlloc_lt (by norm_num)

theorem readable_lt (payload : List UInt8) (h : readable cfg payload) :
    payload.length < 2 ^ 64 :=
  lt_of_le_of_lt h (lt_trans cfg.maxAlloc_lt (by norm_num))

theorem framedStream_length_ge :
    ∀ payloads : List (List UInt8), 8 * payloads.length ≤ (framedStream payloads).length
  | [] => Nat.le_refl _
  | payload :: payloads => by
    have h := framedStream_length_ge payloads
    rw [framedStream, frame_append_length, List.length_cons]
    omega

/-- The loop on a stream of complete frames whose payloads decode, followed by
`tail`, with the abort toggle off. -/
theorem parseLoop_framedStream (hoff : cfg.crashOnUnsupportedIoctl = false)
    (tail : List UInt8) :
    ∀ (payloads : List (List UInt8)) (fuel : Nat) (st : LoopState),
      decodable cfg unmarshal payloads →
      parseLoop nv supportedIoctls cfg unmarshal (fuel + payloads.length)
          (framedStream payloads ++ tail) st =
        parseLoop nv supportedIoctls cfg unmarshal fuel tail
          (processAll nv supportedIoctls cfg st (payloads.filterMap unmarshal))
  | [], fuel, st, _ => rfl
  | payload :: payloads, fuel, st, h => by
    have hhead := h payload (List.mem_cons_self _ _)
    have htail : decodable cfg unmarshal payloads :=
      fun q hq => h q (List.mem_cons_of_mem _ hq)
    obtain ⟨ioctlPB, hu⟩ := Option.isSome_iff_exists.mp hhead.2
    have hc := processIoctl_continues nv supportedIoctls cfg st ioctlPB hoff
    have hp : processIoctl nv supportedIoctls cfg st ioctlPB =
        ((processIoctl nv supportedIoctls cfg st ioctlPB).1, true) := by
      rw [← hc]
    rw [List.length_cons, ← Nat.add_assoc, framedStream, List.append_assoc,
      parseLoop_frame_continue nv supportedIoctls cfg unmarshal _ _ _ st _ ioctlPB
        (readable_lt cfg _ hhead.1) hhead.1 hu hp,
      parseLoop_framedStream hoff tail payloads fuel _ htail,
      List.filterMap_cons, hu]
    rfl

/-- `ParseIoctls` on a stream of complete, decodable records followed by fewer
than 8 bytes, with the abort toggle off: it returns, and the state it returns
is the one the loop body builds record after record. -/
theorem ParseIoctls_framedStream (hoff : cfg.crashOnUnsupportedIoctl = false)
    (payloads : List (List UInt8)) (tail : List UInt8) (htail : tail.length < 8)
    (h : decodable cfg unmarshal payloads) :
    ParseIoctls nv supportedIoctls cfg unmarshal (framedStream payloads ++ tail) =
      some (.returned (processAll nv supportedIoctls cfg ⟨NewResults, []⟩
        (payloads.filterMap unmarshal))) := by
  unfold ParseIoctls
  have hge := framedStream_length_ge payloads
  have hfuel : (framedStream payloads ++ tail).length / 8 + 1 =
      ((framedStream payloads ++ tail).length / 8 - payloads.length + 1) + payloads.length := by
    have : payloads.length ≤ (framedStream payloads ++ tail).length / 8 := by
      rw [List.length_append, Nat.le_div_iff_mul_le (by norm_num)]
      omega
    omega
  rw [hfuel, parseLoop_framedStream nv supportedIoctls cfg unmarshal hoff tail payloads _ _ h,
    parseLoop_short nv supportedIoctls cfg unmarshal _ _ _ htail]

/-- Records whose classification fails leave no trace in the loop state. -/
theorem processAll_filter_classifies (ioctls : List pb.Ioctl) :
    ∀ st : LoopState,
      processAll nv supportedIoctls cfg st (ioctls.filter (classifies nv)) =
        processAll nv supportedIoctls cfg st ioctls := by
  induction ioctls with
  | nil => intro st; rfl
  | cons ioctl ioctls ih =>
    intro st
    cases hc : ParseIoctlOutput nv ioctl with
    | error e =>
      have hcl : classifies nv ioctl = false := by unfold classifies; rw [hc]
      rw [List.filter_cons, hcl]
      simp only [Bool.false_eq_true, if_false]
      rw [ih, processAll_cons, processIoctl_error nv supportedIoctls cfg st ioctl e hc]
    | ok p =>
      have hcl : classifies nv ioctl = true := by unfold classifies; rw [hc]
      rw [List.filter_cons, hcl]
      simp only [if_true]
      rw [processAll_cons, processAll_cons]
      exact ih _

theorem filterMap_filter_classifies (payloads : List (List UInt8))
    (h : decodable cfg unmarshal payloads) :
    (payloads.filter (classifiesPayload nv unmarshal)).filterMap unmarshal =
      (payloads.filterMap unmarshal).filter (classifies nv) := by
  induction payloads with
  | nil => rfl
  | cons payload payloads ih =>
    have hhead := h payload (List.mem_cons_self _ _)
    have htail : decodable cfg unmarshal payloads :=
      fun q hq => h q (List.mem_cons_of_mem _ hq)
    obtain ⟨ioctlPB, hu⟩ := Option.isSome_iff_exists.mp hhead.2
    have hcp : classifiesPayload nv unmarshal payload = classifies nv ioctlPB := by
      unfold classifiesPayload; rw [hu]
    rw [List.filter_cons, List.filterMap_cons, hu, hcp]
    simp only [List.filter_cons]
    cases classifies nv ioctlPB with
    | false => simpa using ih htail
    | true => simp only [if_true, List.filterMap_cons, hu]; rw [ih htail]

theorem decodable_filter (p : List UInt8 → Bool) (payloads : List (List UInt8))
    (h : decodable cfg unmarshal payloads) : decodable cfg unmarshal (payloads.filter p) :=
  fun q hq => h q (List.mem_filter.mp hq).1

/-! ## Truncated tails -/

theorem parseLoop_truncatedTail (fuel : Nat) (tail : List UInt8) (st : LoopState)
    (h : truncatedTail cfg tail) :
    parseLoop nv supportedIoctls cfg unmarshal (fuel + 1) tail st = some (.returned st) := by
  rcases h with h | ⟨size, part, rfl, halloc, hpart⟩
  · exact parseLoop_short nv supportedIoctls cfg unmarshal fuel tail st h
  · have h8 : ¬ (binary.leBytes 8 size ++ part).length < 8 := by
      rw [List.length_append, leBytes_length]; omega
    have hsize : binary.leValue ((binary.leBytes 8 size ++ part).take 8) = size := by
      rw [List.take_left' (leBytes_length 8 _),
        leValue_leBytes_of_lt 8 _ (lt_of_le_of_lt halloc (maxAlloc_lt_pow64 cfg))]
    rw [parseLoop, if_neg h8]
    simp only [hsize, List.drop_left' (leBytes_length 8 size)]
    rw [if_neg (Nat.not_lt.mpr halloc), if_pos hpart]

/-- The loop gives the same outcome on complete frames followed by a truncated
tail as on the complete frames alone. -/
theorem parseLoop_append_truncatedTail (tail : List UInt8) (ht : truncatedTail cfg tail) :
    ∀ (payloads : List (List UInt8)) (fuel fuel' : Nat) (st : LoopState),
      (∀ payload ∈ payloads, readable cfg payload) →
      payloads.length < fuel → payloads.length < fuel' →
      parseLoop nv supportedIoctls cfg unmarshal fuel (framedStream payloads ++ tail) st =
        parseLoop nv supportedIoctls cfg unmarshal fuel' (framedStream payloads) st
  | [], fuel + 1, fuel' + 1, st, _, _, _ => by
    rw [framedStream, List.nil_append,
      parseLoop_truncatedTail nv supportedIoctls cfg unmarshal fuel tail st ht,
      parseLoop_short nv supportedIoctls cfg unmarshal fuel' [] st (by decide)]
  | payload :: payloads, fuel + 1, fuel' + 1, st, h, hf, hf' => by
    have hhead := h payload (List.mem_cons_self _ _)
    have htl : ∀ q ∈ payloads, readable cfg q := fun q hq => h q (List.mem_cons_of_mem _ hq)
    rw [List.length_cons] at hf hf'
    have e2 : framedStream (payload :: payloads) = frame payload ++ framedStream payloads := rfl
    rw [e2, List.append_assoc,
      parseLoop_frame_step nv supportedIoctls cfg unmarshal fuel payload _ st
        (readable_lt cfg _ hhead) hhead,
      parseLoop_frame_step nv supportedIoctls cfg unmarshal fuel' payload _ st
        (readable_lt cfg _ hhead) hhead]
    cases unmarshal payload with
    | none => rfl
    | some ioctlPB =>
      simp only []
      rcases processIoctl nv supportedIoctls cfg st ioctlPB with ⟨st', b⟩
      cases b
      · rfl
      · exact parseLoop_append_truncatedTail tail ht payloads fuel fuel' st' htl
          (by omega) (by omega)

/-- `ParseIoctls` on complete, readable frames followed by a truncated tail whose
announced length can be allocated ends as on the complete frames alone. -/
theorem ParseIoctls_append_truncatedTail (payloads : List (List UInt8)) (tail : List UInt8)
    (h : ∀ payload ∈ payloads, readable cfg payload) (ht : truncatedTail cfg tail) :
    ParseIoctls nv supportedIoctls cfg unmarshal (framedStream payloads ++ tail) =
      ParseIoctls nv supportedIoctls cfg unmarshal (framedStream payloads) := by
  unfold ParseIoctls
  have hge := framedStream_length_ge payloads
  refine parseLoop_append_truncatedTail nv supportedIoctls cfg unmarshal tail ht payloads _ _ _ h
    ?_ ?_
  · have : payloads.length ≤ (framedStream payloads ++ tail).length / 8 := by
      rw [List.length_append, Nat.le_div_iff_mul_le (by norm_num)]
      omega
    omega
  · have : payloads.length ≤ (framedStream payloads).length / 8 := by
      rw [Nat.le_div_iff_mul_le (by norm_num)]
      omega
    omega

/-! ## The dump file -/

/-- C14: for a dumped record the bytes appended to the dump file are the magic
0x4E564944 in 4 little-endian bytes, the request code in 8 little-endian bytes,
4 zero bytes, the subclass in 4 little-endian bytes, the length of the chosen
payload (as a `uint32`) in 4 little-endian bytes, then the chosen payload; for a
payload shorter than 2^32 bytes the entry has 24 bytes more than the payload and
its size field is the number of payload bytes. -/
theorem dump_entry_layout (nv : nvgpu.ABI) (supportedIoctls : SupportedIoctls) (cfg : Config)
    (st : LoopState) (ioctl : pb.Ioctl) (p : Ioctl)
    (hparse : ParseIoctlOutput nv ioctl = .ok p)
    (hfile : cfg.dumpFile = true) (hret : ioctl.Ret = -1)
    (hcls : p.cls = .control ∨ p.cls = .alloc) :
    ∃ request subclass size : List UInt8,
      (processIoctl nv supportedIoctls cfg st ioctl).1.dump =
        st.dump ++ ([0x44, 0x49, 0x56, 0x4E] ++ request ++ [0, 0, 0, 0] ++ subclass ++ size
          ++ dumpData p) ∧
      binary.leValue [0x44, 0x49, 0x56, 0x4E] = 0x4E564944 ∧
      request.length = 8 ∧ binary.leValue request = ioctl.Request % 2 ^ 64 ∧
      subclass.length = 4 ∧ binary.leValue subclass = p.subclass ∧
      size.length = 4 ∧ binary.leValue size = (dumpData p).length % 2 ^ 32 ∧
      ((dumpData p).length < 2 ^ 32 →
        ([0x44, 0x49, 0x56, 0x4E] ++ request ++ [0, 0, 0, 0] ++ subclass ++ size
          ++ dumpData p).length = 24 + (dumpData p).length ∧
        binary.leValue size = (dumpData p).length) := by
  have hlt := ParseIoctlOutput_subclass_lt nv ioctl p hparse
  have hpb := ParseIoctlOutput_pb nv ioctl p hparse
  refine ⟨binary.leBytes 8 ioctl.Request, binary.leBytes 4 (p.subclass % 2 ^ 32),
    binary.leBytes 4 ((dumpData p).length % 2 ^ 32), ?_, by decide, leBytes_length _ _,
    ?_, leBytes_length _ _, ?_, leBytes_length _ _, ?_, ?_⟩
  · rw [processIoctl_dump nv supportedIoctls cfg st ioctl p hparse, if_pos ⟨hfile, hret, hcls⟩]
    unfold dumpEntry
    rw [hpb]
    rfl
  · rw [leValue_leBytes]; norm_num
  · rw [leValue_leBytes, Nat.mod_eq_of_lt hlt]
    exact Nat.mod_eq_of_lt (by norm_num; exact hlt)
  · rw [leValue_leBytes]
    exact Nat.mod_eq_of_lt (lt_of_lt_of_le (Nat.mod_lt _ (by norm_num)) (by norm_num))
  · intro hsmall
    refine ⟨?_, ?_⟩
    · simp only [List.length_append, leBytes_length, List.length_cons, List.length_nil]
    · rw [leValue_leBytes, Nat.mod_eq_of_lt hsmall]
      exact Nat.mod_eq_of_lt (by norm_num; exact hsmall)

/-- C14 at a concrete input: the pre-call RM_CONTROL record of the examples, whose
params payload aa bb is dumped after the 24-byte header. -/
theorem dump_entry_layout_witness :
    (∃ request subclass size : List UInt8,
      (processIoctl nvgpu.reference Init sampleConfig ⟨NewResults, []⟩
          sampleControlRecord).1.dump =
        [] ++ ([0x44, 0x49, 0x56, 0x4E] ++ request ++ [0, 0, 0, 0] ++ subclass ++ size
          ++ dumpData sampleControlIoctl) ∧
      binary.leValue [0x44, 0x49, 0x56, 0x4E] = 0x4E564944 ∧
      request.length = 8 ∧ binary.leValue request = sampleControlRecord.Request % 2 ^ 64 ∧
      subclass.length = 4 ∧ binary.leValue subclass = sampleControlIoctl.subclass ∧
      size.length = 4 ∧ binary.leValue size = (dumpData sampleControlIoctl).length % 2 ^ 32 ∧
      ((dumpData sampleControlIoctl).length < 2 ^ 32 →
        ([0x44, 0x49, 0x56, 0x4E] ++ request ++ [0, 0, 0, 0] ++ subclass ++ size
          ++ dumpData sampleControlIoctl).length = 24 + (dumpData sampleControlIoctl).length ∧
        binary.leValue size = (dumpData sampleControlIoctl).length)) ∧
    (processIoctl nvgpu.reference Init sampleConfig ⟨NewResults, []⟩
        sampleControlRecord).1.dump =
      [0x44, 0x49, 0x56, 0x4E, 0x2a, 0x46, 0x20, 0xc0, 0, 0, 0, 0, 0, 0, 0, 0,
       0x10, 0x01, 0x80, 0x20, 2, 0, 0, 0, 0xaa, 0xbb] :=
  ⟨dump_entry_layout nvgpu.reference Init sampleConfig ⟨NewResults, []⟩ sampleControlRecord
      sampleControlIoctl rfl rfl rfl (Or.inl rfl),
    by decide⟩

/-- C15: with the dump file open, the loop body writes a dump entry for a
successfully classified record exactly when its return code is -1 and its class
is Control or Alloc; the entry is then a 24-byte header followed by the params
payload of the record when that is not empty and by its argument payload
otherwise. -/
theorem dump_written_iff (nv : nvgpu.ABI) (supportedIoctls : SupportedIoctls) (cfg : Config)
    (st : LoopState) (ioctl : pb.Ioctl) (p : Ioctl)
    (hfile : cfg.dumpFile = true) (hparse : ParseIoctlOutput nv ioctl = .ok p) :
    ((processIoctl nv supportedIoctls cfg st ioctl).1.dump ≠ st.dump ↔
      ioctl.Ret = -1 ∧ (p.cls = .control ∨ p.cls = .alloc)) ∧
    (ioctl.Ret = -1 ∧ (p.cls = .control ∨ p.cls = .alloc) →
      ∃ header : List UInt8, header.length = 24 ∧
        (processIoctl nv supportedIoctls cfg st ioctl).1.dump =
          st.dump ++ (header ++
            if ioctl.ParamsData ≠ [] then ioctl.ParamsData else ioctl.ArgData)) := by
  have hpb := ParseIoctlOutput_pb nv ioctl p hparse
  have hd := processIoctl_dump nv supportedIoctls cfg st ioctl p hparse
  constructor
  · constructor
    · intro hne
      by_contra hc
      rw [if_neg (fun h => hc h.2)] at hd
      exact hne hd
    · intro hc
      rw [if_pos ⟨hfile, hc⟩] at hd
      rw [hd]
      intro he
      have hl := congrArg List.length he
      rw [List.length_append, dumpEntry_length] at hl
      omega
  · intro hc
    rw [if_pos ⟨hfile, hc⟩] at hd
    refine ⟨(dumpEntry p).take 24, ?_, ?_⟩
    · rw [List.length_take, dumpEntry_length]; omega
    · rw [hd]
      congr 1
      have hdata : dumpData p = if ioctl.ParamsData ≠ [] then ioctl.ParamsData
          else ioctl.ArgData := by
        unfold dumpData
        rw [hpb]
        by_cases hpar : ioctl.ParamsData = []
        · simp [hpar]
        · have : ioctl.ParamsData.length > 0 := List.length_pos.mpr hpar
          simp [hpar, hc.2, this]
      rw [← hdata]
      unfold dumpEntry
      simp only
      rw [List.take_left' (by simp only [List.length_append, leBytes_length])]

/-- C15 at a concrete input: the pre-call RM_CONTROL record of the examples. -/
theorem dump_written_iff_witness :
    ((processIoctl nvgpu.reference Init sampleConfig ⟨NewResults, []⟩
          sampleControlRecord).1.dump ≠ [] ↔
      sampleControlRecord.Ret = -1 ∧
        (sampleControlIoctl.cls = .control ∨ sampleControlIoctl.cls = .alloc)) ∧
    (sampleControlRecord.Ret = -1 ∧
        (sampleControlIoctl.cls = .control ∨ sampleControlIoctl.cls = .alloc) →
      ∃ header : List UInt8, header.length = 24 ∧
        (processIoctl nvgpu.reference Init sampleConfig ⟨NewResults, []⟩
            sampleControlRecord).1.dump =
          [] ++ (header ++
            if sampleControlRecord.ParamsData ≠ [] then sampleControlRecord.ParamsData
            else sampleControlRecord.ArgData)) :=
  dump_written_iff nvgpu.reference Init sampleConfig ⟨NewResults, []⟩ sampleControlRecord
    sampleControlIoctl rfl rfl

/-! ## Streams of framed records -/

/-- C16: on a stream of complete, decodable framed records, with the abort
toggle off, `ParseIoctls` gives the same outcome (results and dump) as on the
stream from which every record whose classification fails has been removed, and
it returns the state the loop body builds from all the records in order. -/
theorem failing_records_are_skipped (nv : nvgpu.ABI)
    (supportedIoctls : SupportedIoctls) (cfg : Config)
    (unmarshal : List UInt8 → Option pb.Ioctl) (payloads : List (List UInt8))
    (hoff : cfg.crashOnUnsupportedIoctl = false)
    (h : decodable cfg unmarshal payloads) :
    ParseIoctls nv supportedIoctls cfg unmarshal
        (framedStream (payloads.filter (classifiesPayload nv unmarshal))) =
      ParseIoctls nv supportedIoctls cfg unmarshal (framedStream payloads) ∧
    ParseIoctls nv supportedIoctls cfg unmarshal (framedStream payloads) =
      some (.returned (processAll nv supportedIoctls cfg ⟨NewResults, []⟩
        (payloads.filterMap unmarshal))) := by
  have h1 := ParseIoctls_framedStream nv supportedIoctls cfg unmarshal hoff payloads []
    (by decide) h
  have h2 := ParseIoctls_framedStream nv supportedIoctls cfg unmarshal hoff
    (payloads.filter (classifiesPayload nv unmarshal)) [] (by decide)
    (decodable_filter cfg unmarshal _ payloads h)
  rw [List.append_nil] at h1 h2
  rw [h1, h2, filterMap_filter_classifies nv cfg unmarshal payloads h,
    processAll_filter_classifies]
  exact ⟨rfl, rfl⟩

/-- The payloads of the examples are decodable by `sampleUnmarshal`. -/
theorem sample_decodable (payloads : List (List UInt8))
    (h : ∀ payload ∈ payloads,
      payload.length ≤ 2 ^ 48 ∧ (sampleUnmarshal payload).isSome = true) :
    decodable sampleConfig sampleUnmarshal payloads := h

/-- C16 at a concrete input: a UVM record, an RM_CONTROL record with a 3-byte
payload (its classification fails), then a well-formed RM_CONTROL record. -/
theorem failing_records_are_skipped_witness :
    ParseIoctls nvgpu.reference Init sampleConfig sampleUnmarshal
        (framedStream ([[1], [2], [4]].filter
          (classifiesPayload nvgpu.reference sampleUnmarshal))) =
      ParseIoctls nvgpu.reference Init sampleConfig sampleUnmarshal
        (framedStream [[1], [2], [4]]) ∧
    ParseIoctls nvgpu.reference Init sampleConfig sampleUnmarshal
        (framedStream [[1], [2], [4]]) =
      some (.returned (processAll nvgpu.reference Init sampleConfig ⟨NewResults, []⟩
        ([[1], [2], [4]].filterMap sampleUnmarshal))) :=
  failing_records_are_skipped nvgpu.reference Init sampleConfig sampleUnmarshal
    [[1], [2], [4]] rfl (sample_decodable _ (by decide))

/-- C17: the stream that holds no complete record and the 8 bytes ff of a
length prefix, followed by no byte of the 2^64 - 1 it announces, is a truncated
tail, yet `ParseIoctls` does not return the results of the complete records
alone (the empty results of the empty stream): `make([]byte, size)` panics on
the announced length before the short read can be noticed. -/
theorem oversized_length_prefix_panics (nv : nvgpu.ABI)
    (supportedIoctls : SupportedIoctls) (cfg : Config)
    (unmarshal : List UInt8 → Option pb.Ioctl) :
    ParseIoctls nv supportedIoctls cfg unmarshal
        (framedStream [] ++ [0xff, 0xff, 0xff, 0xff, 0xff, 0xff, 0xff, 0xff]) =
      some (.panicked ⟨NewResults, []⟩) ∧
    ParseIoctls nv supportedIoctls cfg unmarshal (framedStream []) =
      some (.returned ⟨NewResults, []⟩) := by
  refine ⟨?_, rfl⟩
  have hsize : binary.leValue [0xff, 0xff, 0xff, 0xff, 0xff, 0xff, 0xff, 0xff]
      = 2 ^ 64 - 1 := by decide
  have hbig : 2 ^ 64 - 1 > cfg.maxAlloc := lt_trans cfg.maxAlloc_lt (by norm_num)
  show parseLoop nv supportedIoctls cfg unmarshal 2
    [0xff, 0xff, 0xff, 0xff, 0xff, 0xff, 0xff, 0xff] ⟨NewResults, []⟩ = _
  rw [parseLoop, if_neg (by decide)]
  simp only [List.take, hsize]
  rw [if_pos hbig]

/-- The scenario of a framed UVM record, then a framed frontend record with the
RM_CONTROL escape code, a payload of the right size and a legacy `Cmd`, then 3
bytes of a length prefix, with the empty supported sets and the abort toggle
off: `ParseIoctls` returns results whose only key is the UVM class, bound to
the one value that the classifier stores for the UVM record, its request code
as a `uint32`. -/
theorem ParseIoctls_uvm_then_legacy_control (nv : nvgpu.ABI) (cfg : Config)
    (unmarshal : List UInt8 → Option pb.Ioctl) (payload1 payload2 tail : List UInt8)
    (uvmIoctl controlIoctl : pb.Ioctl)
    (hoff : cfg.crashOnUnsupportedIoctl = false)
    (hr1 : readable cfg payload1) (hr2 : readable cfg payload2)
    (hu1 : unmarshal payload1 = some uvmIoctl)
    (hu2 : unmarshal payload2 = some controlIoctl)
    (hpath1 : uvmIoctl.FdPath = uvmDevPath)
    (hpath2 : specFrontendPath controlIoctl.FdPath = true)
    (hnr : linux.IOC_NR (controlIoctl.Request % 2 ^ 32) = nv.NV_ESC_RM_CONTROL)
    (hlen : controlIoctl.ArgData.length = nv.SizeofNVOS54Parameters)
    (hlegacy : binary.leValue ((controlIoctl.ArgData.drop nv.NVOS54_Cmd).take 4)
        &&& nv.RM_GSS_LEGACY_MASK ≠ 0)
    (htail : tail.length = 3) :
    ∃ st : LoopState,
      ParseIoctls nv Init cfg unmarshal (frame payload1 ++ frame payload2 ++ tail) =
        some (.returned st) ∧
      ∀ c : ioctlClass,
        st.res.unsupported c =
          if c = .uvm then some [uvmIoctl.Request % 2 ^ 32] else none := by
  have hdec : decodable cfg unmarshal [payload1, payload2] := by
    intro q hq
    rcases List.mem_cons.mp hq with e | hq
    · subst e; exact ⟨hr1, by rw [hu1]; rfl⟩
    · rcases List.mem_cons.mp hq with e | hq
      · subst e; exact ⟨hr2, by rw [hu2]; rfl⟩
      · cases hq
  have h1 := ParseIoctls_framedStream nv Init cfg unmarshal hoff [payload1, payload2] tail
    (by omega) hdec
  have hs : framedStream [payload1, payload2] ++ tail
      = frame payload1 ++ frame payload2 ++ tail := by
    simp only [framedStream, List.append_nil]
  rw [hs] at h1
  refine ⟨_, h1, ?_⟩
  intro c
  have hfm : [payload1, payload2].filterMap unmarshal = [uvmIoctl, controlIoctl] := by
    simp only [List.filterMap_cons, hu1, hu2, List.filterMap_nil]
  have hp1 := ParseIoctlOutput_uvm nv uvmIoctl hpath1
  have hp2 := ParseIoctlOutput_control nv controlIoctl hpath2 hnr hlen
  rw [hfm, processAll_unsupported]
  have hspec : specUnsupported nv Init c [uvmIoctl, controlIoctl]
      = if c = .uvm then [uvmIoctl.Request % 2 ^ 32] else [] := by
    unfold specUnsupported
    have hs1 : (⟨uvmIoctl, .uvm, uvmIoctl.Request % 2 ^ 32, 0⟩ : Ioctl).IsSupported nv Init
        = false := IsSupported_Init_of_ne_control nv _ (fun e => ioctlClass.noConfusion e)
    have hs2 : (⟨controlIoctl, .control,
        binary.leValue ((controlIoctl.ArgData.drop nv.NVOS54_Cmd).take 4),
        binary.leValue ((controlIoctl.ArgData.drop nv.NVOS54_Status).take 4)⟩ :
          Ioctl).IsSupported nv Init = true := IsSupported_of_legacy nv Init _ rfl hlegacy
    simp only [List.filterMap_cons, hp1, hp2, List.filterMap_nil, hs1, hs2, and_true,
      Bool.true_eq_false, and_false, if_false]
    by_cases hc : c = .uvm
    · subst hc; simp
    · have hc' : ¬ ioctlClass.uvm = c := fun e => hc e.symm
      simp [hc, hc']
  rw [hspec]
  by_cases hc : c = .uvm
  · rw [if_pos hc, if_pos hc, if_neg (List.cons_ne_nil _ _)]
    rfl
  · rw [if_neg hc, if_neg hc, if_pos rfl]
    rfl

/-- C18: on the stream made of the framed UVM record with request code
0x30000001, the framed legacy RM_CONTROL record and the 3 bytes 09 09 09, with
the empty supported sets and the abort toggle off, `ParseIoctls` returns results
whose only key is the UVM class, but the value under it is 0x30000001, the
request code truncated to 32 bits, not the subcategory of the record, its
command number 0x01. -/
theorem end_to_end_stores_request_code :
    (∃ st : LoopState,
      ParseIoctls nvgpu.reference Init sampleConfig sampleUnmarshal
          (frame [1] ++ frame [3] ++ [9, 9, 9]) = some (.returned st) ∧
      ∀ c : ioctlClass,
        st.res.unsupported c = if c = .uvm then some [0x30000001] else none) ∧
    sampleUnmarshal [1] = some sampleUvmRecord ∧
    sampleUvmRecord.FdPath = uvmDevPath ∧
    linux.IOC_NR (sampleUvmRecord.Request % 2 ^ 32) = 0x01 :=
  ⟨ParseIoctls_uvm_then_legacy_control nvgpu.reference sampleConfig sampleUnmarshal
      [1] [3] [9, 9, 9] sampleUvmRecord sampleLegacyRecord rfl
      (by unfold readable; decide) (by unfold readable; decide) rfl rfl rfl
      (by decide) (by decide) rfl (by decide) rfl,
    rfl, rfl, by decide⟩

/-- C19: on a stream of complete, decodable framed records, with the abort
toggle off, `ParseIoctls` returns results that hold, for each class, exactly the
subclasses of the records that classify into that class and are not supported,
in stream order with duplicates kept; a class with no such record has no key. -/
theorem Results_of_stream (nv : nvgpu.ABI)
    (supportedIoctls : SupportedIoctls) (cfg : Config)
    (unmarshal : List UInt8 → Option pb.Ioctl) (payloads : List (List UInt8))
    (hoff : cfg.crashOnUnsupportedIoctl = false)
    (h : decodable cfg unmarshal payloads) :
    ∃ st : LoopState,
      ParseIoctls nv supportedIoctls cfg unmarshal (framedStream payloads) =
        some (.returned st) ∧
      ∀ c : ioctlClass,
        st.res.unsupported c =
          if specUnsupported nv supportedIoctls c (payloads.filterMap unmarshal) = [] then none
          else some (specUnsupported nv supportedIoctls c (payloads.filterMap unmarshal)) := by
  have h1 := ParseIoctls_framedStream nv supportedIoctls cfg unmarshal hoff payloads []
    (by decide) h
  rw [List.append_nil] at h1
  refine ⟨_, h1, ?_⟩
  intro c
  rw [processAll_unsupported]
  rfl

/-- C19 at a concrete input: two UVM records around a failing and a well-formed
RM_CONTROL record; UVM holds 0x30000001 twice, Control holds 0x20800110. -/
theorem Results_of_stream_witness :
    (∃ st : LoopState,
      ParseIoctls nvgpu.reference Init sampleConfig sampleUnmarshal
          (framedStream [[1], [2], [4], [1]]) = some (.returned st) ∧
      ∀ c : ioctlClass,
        st.res.unsupported c =
          if specUnsupported nvgpu.reference Init c
              ([[1], [2], [4], [1]].filterMap sampleUnmarshal) = [] then none
          else some (specUnsupported nvgpu.reference Init c
              ([[1], [2], [4], [1]].filterMap sampleUnmarshal))) ∧
    specUnsupported nvgpu.reference Init .uvm
      ([[1], [2], [4], [1]].filterMap sampleUnmarshal) = [0x30000001, 0x30000001] ∧
    specUnsupported nvgpu.reference Init .control
      ([[1], [2], [4], [1]].filterMap sampleUnmarshal) = [0x20800110] :=
  ⟨Results_of_stream nvgpu.reference Init sampleConfig sampleUnmarshal
      [[1], [2], [4], [1]] rfl (sample_decodable _ (by decide)),
    by decide, by decide⟩

/-! ## A Control classification outside the frontend paths -/

/-- C20: the path "/dev/nvidia7-backup" is not a frontend path, yet a record on
it with the RM_CONTROL escape code and a 32-byte payload is classified Control. -/
theorem control_outside_frontend_paths :
    specFrontendPath "/dev/nvidia7-backup" = false ∧
    linux.IOC_NR (0xc020462a % 2 ^ 32) = nvgpu.reference.NV_ESC_RM_CONTROL ∧
    ∃ p : Ioctl,
      ParseIoctlOutput nvgpu.reference
        ⟨"/dev/nvidia7-backup", 0xc020462a, -1, List.replicate 32 0, []⟩ = .ok p ∧
      p.cls = .control :=
  ⟨by decide, by decide, _, rfl, rfl⟩

end sniffer
